import Mathlib

/-
Verification development for the MIR <-> LLVM-bitcode bridge found in
src/compiler/codegen/MethodBitcode.cc.  Every definition below is a shallow
embedding of the function of the same (or clearly indicated) name in that
file; theorems settle the specification claims about those functions.
-/

set_option maxHeartbeats 1000000

namespace ArtBitcode

/-- Generic-IR (LLVM) types the bridge produces and consumes: the 64-bit
float, 64-bit integer, 32-bit float, managed-object-reference and 32-bit
integer types appearing in llvmTypeFromLocRec and createLocFromValue. -/
inductive LType where
  | doubleTy
  | int64Ty
  | floatTy
  | jobjectTy
  | int32Ty
  deriving DecidableEq, Repr

/-- Storage kind of a RegLocation (kLocDalvikFrame / kLocPhysReg /
kLocInvalid). -/
inductive LocKind where
  | dalvikFrame
  | physReg
  | invalid
  deriving DecidableEq, Repr

/-- Source register-location descriptor (RegLocation), restricted to the
fields MethodBitcode.cc reads: storage kind, the wide/defined/fp/core/ref
flags and the two SSA register numbers.  origSReg is an int in the source
(INVALID_SREG is a negative sentinel), hence Int here. -/
structure RegLocation where
  location : LocKind
  wide : Bool
  defined : Bool
  fp : Bool
  core : Bool
  ref : Bool
  origSReg : Int
  sRegLow : Int
  deriving DecidableEq, Repr

/-- Modelled from the spec: the invalid location descriptor (extern const
RegLocation badLoc, defined outside this translation unit): storage kind
invalid, all flags clear, both SSA register numbers the negative
INVALID_SREG sentinel. -/
def badLoc : RegLocation :=
  { location := LocKind.invalid, wide := false, defined := false,
    fp := false, core := false, ref := false, origSReg := -1, sRegLow := -1 }

/-- Embedding of llvmTypeFromLocRec (MethodBitcode.cc lines 58-77): the
generic-IR type chosen for a location, by its wide/fp/ref flags. -/
def llvmTypeFromLocRec (loc : RegLocation) : LType :=
  if loc.wide then
    if loc.fp then LType.doubleTy else LType.int64Ty
  else
    if loc.fp then LType.floatTy
    else if loc.ref then LType.jobjectTy
    else LType.int32Ty

/-- Embedding of the flag-recovery part of createLocFromValue
(MethodBitcode.cc lines 97-114): from a value's generic-IR type, wide is
set for the 64-bit integer or 64-bit float type; then exactly one of
fp/ref/core is set: fp for the float types, otherwise ref for the
object-reference type, otherwise core.  The numeric fields (sRegLow from
the parsed name, origSReg from the registry size) are irrelevant to the
flag round-trip and are passed in. -/
def createLocFromValue (ty : LType) (baseSReg : Int) (mapSize : Int) : RegLocation :=
  let wide := ty == LType.int64Ty || ty == LType.doubleTy
  let fp := ty == LType.floatTy || ty == LType.doubleTy
  let ref := !fp && ty == LType.jobjectTy
  let core := !fp && !ref
  { location := LocKind.dalvikFrame, wide := wide, defined := true,
    fp := fp, core := core, ref := ref, origSReg := mapSize, sRegLow := baseSReg }

/-- A defined location carries exactly one of the fp/ref/core class flags
(the spec's data-model invariant for C1). -/
def exactlyOneClassFlag (loc : RegLocation) : Bool :=
  (loc.fp && !loc.ref && !loc.core) ||
  (!loc.fp && loc.ref && !loc.core) ||
  (!loc.fp && !loc.ref && loc.core)

/-- The concrete location refuting claim C1 as stated: a wide
object-reference location (ref is its only class flag). -/
def wideRefLoc : RegLocation :=
  { location := LocKind.dalvikFrame, wide := true, defined := true,
    fp := false, core := false, ref := true, origSReg := 0, sRegLow := 0 }

/-! Forward-conversion value registry (oatMethodMIR2Bitcode, defineValue,
getLLVMValue; MethodBitcode.cc lines 43-56, 1635-1769).  Generic-IR values
are identified by allocation order (a Nat); the registry llvmValues maps an
SSA slot to the value currently standing for it (none models a NULL
entry).  names is the value-to-name map; insts is the list of emitted
instructions, each a result value with its operand list; phIds records the
values that live in the placeholder basic block (the loads created by the
pre-declaration loop), which is erased at the end of the pass. -/

/-- A generic-IR value handle, identified by allocation order. -/
abbrev Val := Nat

/-- Forward-conversion state: value counter, slot registry (cUnit->llvmValues),
value names, emitted instructions (result, operands) and the set of values
residing in the placeholder block. -/
structure FwdState where
  nextVal : Nat
  llvmValues : List (Option Val)
  names : List (Val × String)
  insts : List (Val × List Val)
  phIds : List Val
  deriving DecidableEq, Repr

/-- Embedding of getLLVMValue (lines 43-46): fetch the registry entry for a
slot; none models both a NULL entry and an out-of-range slot. -/
def getLLVMValue (st : FwdState) (sReg : Nat) : Option Val :=
  match st.llvmValues.get? sReg with
  | some (some v) => some v
  | _ => none

/-- Name lookup in the value-name map. -/
def nameOf (names : List (Val × String)) (v : Val) : Option String :=
  (names.find? (fun p => p.1 == v)).map (fun p => p.2)

/-- Model of llvm Value::takeName as used by defineValue: val takes ph's
name and ph becomes unnamed (val's own previous name, if any, is dropped). -/
def takeName (names : List (Val × String)) (val ph : Val) : List (Val × String) :=
  let rest := names.filter (fun p => p.1 != ph && p.1 != val)
  match nameOf names ph with
  | some n => (val, n) :: rest
  | none => rest

/-- Model of llvm Value::replaceAllUsesWith over the emitted instructions:
every operand equal to ph becomes val. -/
def replaceAllUsesWith (insts : List (Val × List Val)) (ph val : Val) :
    List (Val × List Val) :=
  insts.map (fun i => (i.1, i.2.map (fun o => if o == ph then val else o)))

/-- Embedding of defineValue (lines 49-56): fetch the slot's placeholder
(CHECK-fatal, modelled as none, when the entry is NULL or out of range),
replace all uses of it with the real value, transfer its name to the real
value, and overwrite the registry entry. -/
def defineValue (st : FwdState) (val : Val) (sReg : Nat) : Option FwdState :=
  match st.llvmValues.get? sReg with
  | some (some ph) =>
      some { nextVal := st.nextVal,
             llvmValues := st.llvmValues.set sReg (some val),
             names := takeName st.names val ph,
             insts := replaceAllUsesWith st.insts ph val,
             phIds := st.phIds }
  | _ => none

/-- Per-method inputs of the forward pass that the value-creation loop
reads: register counts, the wide flag of each slot's RegLocation, the
SRegToVReg mapping (negative for Method* and compiler temps), each slot's
SSA name string, and the number of generic-IR function arguments following
the method argument (argument k is value k). -/
structure MethodSig where
  numRegs : Nat
  numIns : Nat
  numSSARegs : Nat
  numArgs : Nat
  regWide : Nat → Bool
  sRegToVReg : Nat → Int
  ssaName : Nat → String

/-- Embedding of createFunction's argument-naming loop (lines 1648-1659):
the SSA slot attached to each generic-IR argument after the method
argument, starting at numRegs and advancing by two for a wide slot. -/
def argSlotsAux (m : MethodSig) : Nat → Nat → List Nat
  | 0, _ => []
  | k + 1, s => s :: argSlotsAux m k (s + if m.regWide s then 2 else 1)

/-- Slot list for the generic-IR arguments of a method. -/
def argSlots (m : MethodSig) : List Nat := argSlotsAux m m.numArgs m.numRegs

/-- State after createFunction: arguments are the values 0..numArgs-1, each
named "v" ++ slot ++ "_0" for its slot from argSlots; no registry entries,
no instructions, no placeholders yet. -/
def createFunction (m : MethodSig) : FwdState :=
  { nextVal := m.numArgs,
    llvmValues := [],
    names := (List.range m.numArgs).map
      (fun k => (k, "v" ++ toString ((argSlots m).getD k 0) ++ "_0")),
    insts := [],
    phIds := [] }

/-- Embedding of the value pre-declaration loop of oatMethodMIR2Bitcode
(lines 1715-1740), structured by remaining fuel (the loop index i increases
by 1 or 2 each iteration, so numSSARegs steps suffice).  Slots below
numRegs get a NULL entry; slots at or beyond numRegs+numIns get a fresh
named placeholder load (NULL when SRegToVReg is negative), and when such a
slot is wide the next slot gets a NULL entry and is skipped; the remaining
(argument-window) slots each recover the next function argument in order
with no wide skip, exactly as in the source; reading past the last
argument (undefined behaviour in the source) is modelled as a NULL entry. -/
def createValuesAux (m : MethodSig) : Nat → Nat → Nat → FwdState → FwdState
  | 0, _, _, st => st
  | fuel + 1, i, argIdx, st =>
    if i < m.numSSARegs then
      if i < m.numRegs then
        createValuesAux m fuel (i + 1) argIdx
          { st with llvmValues := st.llvmValues ++ [none] }
      else if m.numRegs + m.numIns ≤ i then
        if m.sRegToVReg i < 0 then
          let st1 := { st with llvmValues := st.llvmValues ++ [none] }
          if m.regWide i then
            createValuesAux m fuel (i + 2) argIdx
              { st1 with llvmValues := st1.llvmValues ++ [none] }
          else
            createValuesAux m fuel (i + 1) argIdx st1
        else
          let ph := st.nextVal
          let st1 : FwdState :=
            { nextVal := ph + 1,
              llvmValues := st.llvmValues ++ [some ph],
              names := (ph, m.ssaName i) :: st.names,
              insts := st.insts,
              phIds := st.phIds ++ [ph] }
          if m.regWide i then
            createValuesAux m fuel (i + 2) argIdx
              { st1 with llvmValues := st1.llvmValues ++ [none] }
          else
            createValuesAux m fuel (i + 1) argIdx st1
      else
        let entry := if argIdx < m.numArgs then some argIdx else none
        createValuesAux m fuel (i + 1) (argIdx + 1)
          { st with llvmValues := st.llvmValues ++ [entry] }
    else st

/-- State after the pre-declaration loop of oatMethodMIR2Bitcode. -/
def createValues (m : MethodSig) : FwdState :=
  createValuesAux m m.numSSARegs 0 0 (createFunction m)

/-- One step of the block-conversion driver, abstracted to what it does to
the registry: a converted instruction fetches its operands from the
registry via getLLVMValue (uses) and, when it defines an SSA value, calls
defineValue on its freshly created result (convertMIRNode's uniform
emit-then-defineValue shape). -/
structure FwdEvent where
  uses : List Nat
  defSlot : Option Nat
  deriving DecidableEq, Repr

/-- Fetch a list of operand values from the registry in order; none when
any use's registry entry is NULL (the fatal CHECK paths of the source). -/
def lookupUses (st : FwdState) : List Nat → Option (List Val)
  | [] => some []
  | s :: ss =>
    match getLLVMValue st s, lookupUses st ss with
    | some v, some vs => some (v :: vs)
    | _, _ => none

/-- Emit one converted instruction: fetch operands via getLLVMValue (abort,
like the fatal CHECK paths, if a use's registry entry is NULL), allocate
the result value, append the instruction, and run defineValue when the
event defines a slot. -/
def emitEvent (st : FwdState) (ev : FwdEvent) : Option FwdState :=
  match lookupUses st ev.uses with
  | none => none
  | some ops =>
    let val := st.nextVal
    let st1 : FwdState :=
      { nextVal := val + 1,
        llvmValues := st.llvmValues,
        names := st.names,
        insts := st.insts ++ [(val, ops)],
        phIds := st.phIds }
    match ev.defSlot with
    | none => some st1
    | some s => defineValue st1 val s

/-- Run the conversion driver over a list of events. -/
def runEvents : FwdState → List FwdEvent → Option FwdState
  | st, [] => some st
  | st, ev :: rest => (emitEvent st ev).bind (fun st1 => runEvents st1 rest)

/-- Whole-method forward conversion at the registry level: pre-declare all
values, then run the driver (oatMethodMIR2Bitcode lines 1696-1748; the
placeholder block is erased afterwards, so the finished function consists
of the arguments and the emitted instructions). -/
def oatMethodMIR2Bitcode (m : MethodSig) (events : List FwdEvent) :
    Option FwdState :=
  runEvents (createValues m) events

/-- Slots defined by a list of events. -/
def defSlots (events : List FwdEvent) : List Nat :=
  events.filterMap (fun ev => ev.defSlot)

/-- Boolean check that every referenced slot whose registry entry is (still)
a placeholder at the start of the driver is defined by some event: the
hypothesis of the completeness half of claim C2. -/
def usesResolved (init : FwdState) (events : List FwdEvent) : Bool :=
  events.all (fun ev => ev.uses.all (fun s =>
    (getLLVMValue init s).all (fun v =>
      !(init.phIds.contains v) || (defSlots events).contains s)))

/-- Induction invariant for the completeness half of claim C2, threaded
over the driver run; rem is the suffix of events still to process.
Placeholders appearing as operands of already-emitted instructions are
pending: their slot is defined by a remaining event and still holds them.
Registry-resident placeholders are untouched initial entries whose
defining event, if scheduled at all, is still remaining.  Result values
and registry values stay below the allocation counter, which never drops
below its initial value, and the placeholder set never changes. -/
structure DriverInv (init : FwdState) (events rem : List FwdEvent)
    (st : FwdState) : Prop where
  nextGe : init.nextVal ≤ st.nextVal
  phSame : st.phIds = init.phIds
  regLt : ∀ s v, st.llvmValues.get? s = some (some v) → v < st.nextVal
  instResGe : ∀ r ops, (r, ops) ∈ st.insts → init.nextVal ≤ r
  pending : ∀ r ops, (r, ops) ∈ st.insts → ∀ o ∈ ops, o ∈ init.phIds →
    ∃ s, s ∈ defSlots rem ∧ st.llvmValues.get? s = some (some o)
  regOrig : ∀ s v, st.llvmValues.get? s = some (some v) → v ∈ init.phIds →
    init.llvmValues.get? s = some (some v)
  sched : ∀ s v, st.llvmValues.get? s = some (some v) → v ∈ init.phIds →
    s ∈ defSlots events → s ∈ defSlots rem

/-- Tiny method for the claim C2 witness: two non-argument SSA slots, both
of which get placeholders, and no function arguments. -/
def c2Method : MethodSig :=
  { numRegs := 0, numIns := 0, numSSARegs := 2, numArgs := 0,
    regWide := fun _ => false, sRegToVReg := fun i => (i : Int),
    ssaName := fun i => "v" ++ toString i ++ "_0" }

/-- Events of the claim C2 witness: the first instruction uses slot 1
before its definition (a forward reference) and defines slot 0; the second
defines slot 1. -/
def c2Events : List FwdEvent := [⟨[1], some 0⟩, ⟨[], some 1⟩]

/-- Final state of the claim C2 witness run (both placeholders resolved:
the forward reference in the first instruction's operand list was
backpatched to the second instruction's result). -/
def c2Final : FwdState :=
  { nextVal := 4, llvmValues := [some 2, some 3],
    names := [(3, "v1_0"), (2, "v0_0")], insts := [(2, [3]), (3, [])],
    phIds := [0, 1] }

/-- Failing input for claim C3: a method whose argument window holds a
wide (long) argument in slots 0-1 followed by a narrow argument in slot 2
(numIns counts words). -/
def wideArgMethod : MethodSig :=
  { numRegs := 0, numIns := 3, numSSARegs := 3, numArgs := 2,
    regWide := fun i => i == 0, sRegToVReg := fun i => (i : Int),
    ssaName := fun i => "v" ++ toString i ++ "_0" }

/-- Contrast input for claim C3: the same wide pair as non-argument SSA
definitions, i.e. in the placeholder region, where the source does skip
the trailing word. -/
def widePhMethod : MethodSig :=
  { numRegs := 0, numIns := 0, numSSARegs := 2, numArgs := 0,
    regWide := fun i => i == 0, sRegToVReg := fun i => (i : Int),
    ssaName := fun i => "v" ++ toString i ++ "_0" }

/-! Branch conversion (convertCompareAndBranch lines 302-317,
convertCompareZeroAndBranch lines 319-338, the GOTO case of convertMIRNode
lines 901-909) and the return cases (lines 842-862), modelled as the list
of operations they emit in order. -/

/-- Condition codes of convertCompare. -/
inductive CondCode where
  | condEq
  | condNe
  | condLt
  | condGe
  | condGt
  | condLe
  deriving DecidableEq, Repr

/-- Operations emitted by the branch/return converters, in emission order:
the CheckSuspend intrinsic call, an integer compare (zeroRhs marks the
compare-against-zero/null form), a conditional branch to the taken and
fall-through blocks, an unconditional branch, the PopShadowFrame intrinsic
call, a return (with or without value) and the AllocaShadowFrame intrinsic
call sized by its entry count. -/
inductive EmittedOp where
  | checkSuspend
  | icmp (cc : CondCode) (zeroRhs : Bool)
  | condBr (takenId fallId : Nat)
  | br (targetId : Nat)
  | popShadowFrame
  | ret
  | retVoid
  | allocaShadowFrame (entries : Nat)
  deriving DecidableEq, Repr

/-- A basic-block reference as the branch converters read it: block id and
start offset. -/
structure BBlockRef where
  id : Nat
  startOffset : Nat
  deriving DecidableEq, Repr

/-- The fields of a source BasicBlock that the branch converters read:
its own start offset and the taken and fall-through successors.  (The
source also NULLs bb->fallThrough after emitting the conditional branch so
the driver does not add a second fall-through branch; that side effect is
not needed by the claims.) -/
structure BBlock where
  id : Nat
  startOffset : Nat
  taken : BBlockRef
  fallThrough : BBlockRef
  deriving DecidableEq, Repr

/-- The one field of a MIR instruction the branch converters read: its
bytecode offset. -/
structure MIRInst where
  offset : Nat
  deriving DecidableEq, Repr

/-- Embedding of convertCompareAndBranch (lines 302-317): a suspend check
is emitted first iff the taken block's start offset is at or before the
branch instruction's own offset (mir->offset), then the compare and the
conditional branch. -/
def convertCompareAndBranch (bb : BBlock) (mir : MIRInst) (cc : CondCode) :
    List EmittedOp :=
  (if bb.taken.startOffset ≤ mir.offset then [EmittedOp.checkSuspend] else [])
    ++ [EmittedOp.icmp cc false,
        EmittedOp.condBr bb.taken.id bb.fallThrough.id]

/-- Embedding of convertCompareZeroAndBranch (lines 319-338): same suspend
condition as convertCompareAndBranch; the second compare operand is the
null reference or integer zero. -/
def convertCompareZeroAndBranch (bb : BBlock) (mir : MIRInst) (cc : CondCode) :
    List EmittedOp :=
  (if bb.taken.startOffset ≤ mir.offset then [EmittedOp.checkSuspend] else [])
    ++ [EmittedOp.icmp cc true,
        EmittedOp.condBr bb.taken.id bb.fallThrough.id]

/-- Embedding of the GOTO/GOTO_16/GOTO_32 case of convertMIRNode (lines
901-909): a suspend check is emitted iff the taken block's start offset is
at or before the branch's own BLOCK start offset, then the unconditional
branch. -/
def convertGoto (bb : BBlock) : List EmittedOp :=
  (if bb.taken.startOffset ≤ bb.startOffset then [EmittedOp.checkSuspend]
   else [])
    ++ [EmittedOp.br bb.taken.id]

/-- The compilation-unit fields the return cases read: whether the method
attributes include METHOD_IS_LEAF, plus (for stating claim C5) the
shadow-frame entry count that decides whether a shadow frame was
allocated in the entry block - which the return cases do NOT consult. -/
structure CUnitReturnCtx where
  methodIsLeaf : Bool
  numShadowFrameEntries : Nat
  deriving DecidableEq, Repr

/-- Embedding of the RETURN/RETURN_WIDE/RETURN_OBJECT case of
convertMIRNode (lines 842-852): suspend check iff the method is not a
leaf, then an unconditional PopShadowFrame, then the return. -/
def convertReturnValue (cu : CUnitReturnCtx) : List EmittedOp :=
  (if !cu.methodIsLeaf then [EmittedOp.checkSuspend] else [])
    ++ [EmittedOp.popShadowFrame, EmittedOp.ret]

/-- Embedding of the RETURN_VOID case of convertMIRNode (lines 854-862). -/
def convertReturnVoid (cu : CUnitReturnCtx) : List EmittedOp :=
  (if !cu.methodIsLeaf then [EmittedOp.checkSuspend] else [])
    ++ [EmittedOp.popShadowFrame, EmittedOp.retVoid]

/-! Reverse-pass binary-operation conversion (cvtBinOp lines 1928-1955 and
getDalvikOpcode lines 1807-1857). -/

/-- Operation kinds dispatched to cvtBinOp / genArithOp. -/
inductive OpKind where
  | opAdd
  | opSub
  | opRsub
  | opMul
  | opDiv
  | opRem
  | opAnd
  | opOr
  | opXor
  | opLsl
  | opLsr
  | opAsr
  deriving DecidableEq, Repr

/-- The Dalvik opcodes (Instruction::Code) this file's claims mention. -/
inductive Instr where
  | ADD_INT | SUB_INT | RSUB_INT | MUL_INT | DIV_INT | REM_INT
  | AND_INT | OR_INT | XOR_INT | SHL_INT | SHR_INT | USHR_INT
  | ADD_LONG | SUB_LONG | MUL_LONG | DIV_LONG | REM_LONG
  | AND_LONG | OR_LONG | XOR_LONG | SHL_LONG | SHR_LONG | USHR_LONG
  | ADD_INT_LIT16 | ADD_INT_LIT8 | RSUB_INT_LIT8
  | MUL_INT_LIT16 | MUL_INT_LIT8 | DIV_INT_LIT16 | DIV_INT_LIT8
  | REM_INT_LIT16 | REM_INT_LIT8 | AND_INT_LIT16 | AND_INT_LIT8
  | OR_INT_LIT16 | OR_INT_LIT8 | XOR_INT_LIT16 | XOR_INT_LIT8
  | SHL_INT_LIT8 | SHR_INT_LIT8 | USHR_INT_LIT8
  | SPUT | SPUT_OBJECT | SPUT_BOOLEAN | SPUT_BYTE | SPUT_CHAR | SPUT_SHORT
  | SPUT_WIDE
  | SGET | SGET_OBJECT | SGET_BOOLEAN | SGET_BYTE | SGET_CHAR | SGET_SHORT
  | SGET_WIDE
  | IGET | IGET_OBJECT | IGET_BOOLEAN | IGET_BYTE | IGET_CHAR | IGET_SHORT
  | IGET_WIDE
  | IPUT | IPUT_OBJECT | IPUT_BOOLEAN | IPUT_BYTE | IPUT_CHAR | IPUT_SHORT
  | IPUT_WIDE
  | RETURN | RETURN_WIDE | RETURN_OBJECT | RETURN_VOID
  | NOP
  deriving DecidableEq, Repr

/-- Embedding of the return-family dispatch of convertMIRNode (lines
842-862): RETURN, RETURN_WIDE and RETURN_OBJECT share the value-return
case; RETURN_VOID has its own; other opcodes are not return opcodes. -/
def convertReturnMIR (opcode : Instr) (cu : CUnitReturnCtx) :
    Option (List EmittedOp) :=
  match opcode with
  | Instr.RETURN => some (convertReturnValue cu)
  | Instr.RETURN_WIDE => some (convertReturnValue cu)
  | Instr.RETURN_OBJECT => some (convertReturnValue cu)
  | Instr.RETURN_VOID => some (convertReturnVoid cu)
  | _ => none

/-- Embedding of getDalvikOpcode (lines 1807-1857): the Dalvik opcode for
an OpKind, picked from the wide, constant-operand or register-register
table; the LOG(FATAL) default cases are modelled as none. -/
def getDalvikOpcode (op : OpKind) (isConst isWide : Bool) : Option Instr :=
  if isWide then
    match op with
    | OpKind.opAdd => some Instr.ADD_LONG
    | OpKind.opSub => some Instr.SUB_LONG
    | OpKind.opMul => some Instr.MUL_LONG
    | OpKind.opDiv => some Instr.DIV_LONG
    | OpKind.opRem => some Instr.REM_LONG
    | OpKind.opAnd => some Instr.AND_LONG
    | OpKind.opOr => some Instr.OR_LONG
    | OpKind.opXor => some Instr.XOR_LONG
    | OpKind.opLsl => some Instr.SHL_LONG
    | OpKind.opLsr => some Instr.USHR_LONG
    | OpKind.opAsr => some Instr.SHR_LONG
    | _ => none
  else if isConst then
    match op with
    | OpKind.opAdd => some Instr.ADD_INT_LIT16
    | OpKind.opSub => some Instr.RSUB_INT_LIT8
    | OpKind.opMul => some Instr.MUL_INT_LIT16
    | OpKind.opDiv => some Instr.DIV_INT_LIT16
    | OpKind.opRem => some Instr.REM_INT_LIT16
    | OpKind.opAnd => some Instr.AND_INT_LIT16
    | OpKind.opOr => some Instr.OR_INT_LIT16
    | OpKind.opXor => some Instr.XOR_INT_LIT16
    | OpKind.opLsl => some Instr.SHL_INT_LIT8
    | OpKind.opLsr => some Instr.USHR_INT_LIT8
    | OpKind.opAsr => some Instr.SHR_INT_LIT8
    | _ => none
  else
    match op with
    | OpKind.opAdd => some Instr.ADD_INT
    | OpKind.opSub => some Instr.SUB_INT
    | OpKind.opMul => some Instr.MUL_INT
    | OpKind.opDiv => some Instr.DIV_INT
    | OpKind.opRem => some Instr.REM_INT
    | OpKind.opAnd => some Instr.AND_INT
    | OpKind.opOr => some Instr.OR_INT
    | OpKind.opXor => some Instr.XOR_INT
    | OpKind.opLsl => some Instr.SHL_INT
    | OpKind.opLsr => some Instr.USHR_INT
    | OpKind.opAsr => some Instr.SHR_INT
    | _ => none

/-- A generic-IR operand as cvtBinOp inspects it: either an integer
constant (llvm::ConstantInt, with its sign-extended value) or a
register-carried value whose RegLocation getLoc recovers. -/
inductive LVal where
  | constInt (c : Int)
  | reg (loc : RegLocation)
  deriving DecidableEq, Repr

/-- The low-level emission a binary-operation conversion produces: either a
literal-operand form (genArithOpIntLit, carrying the Dalvik opcode, the
register source location and the immediate) or a register-register form
(genArithOpInt/genArithOpLong, carrying the opcode, the wide flag and both
source locations). -/
inductive BinEmission where
  | arithLit (opcode : Instr) (src1 : RegLocation) (imm : Int)
  | arithRR (opcode : Instr) (wide : Bool) (src1 src2 : RegLocation)
  deriving DecidableEq, Repr

/-- Embedding of cvtBinOp (lines 1928-1955).  A constant first operand is
special-cased for kOpSub into genArithOpIntLit with Instruction::RSUB_INT
and the constant as immediate (the second operand supplies the register
source); for any other kind a constant first operand trips
DCHECK(lhsImm == NULL), modelled as none.  A constant second operand goes
through getDalvikOpcode(op, true, false); otherwise the register-register
opcode getDalvikOpcode(op, false, rlDest.wide) is used.  A constant-
constant pair cannot reach genArithOpIntLit's register path in the source
(getLoc on an unnamed constant is its UNIMPLEMENTED fallback) and is
modelled as none. -/
def cvtBinOp (op : OpKind) (destWide : Bool) (lhs rhs : LVal) :
    Option BinEmission :=
  match lhs with
  | LVal.constInt c =>
    match op, rhs with
    | OpKind.opSub, LVal.reg l1 => some (BinEmission.arithLit Instr.RSUB_INT l1 c)
    | _, _ => none
  | LVal.reg l1 =>
    match rhs with
    | LVal.constInt c =>
      (getDalvikOpcode op true false).map
        (fun dop => BinEmission.arithLit dop l1 c)
    | LVal.reg l2 =>
      (getDalvikOpcode op false destWide).map
        (fun dop => BinEmission.arithRR dop destWide l1 l2)

/-! Field access conversion (convertSget lines 143-151, convertSput lines
153-162, convertIget lines 594-605, convertIput lines 607-618, and the
SPUT/SGET/IGET/IPUT dispatch of convertMIRNode lines 776-840 and
1259-1334), modelled as the intrinsic call each one emits. -/

/-- The high-level field intrinsics of the catalog used by the dispatch. -/
inductive IntrinsicId where
  | HLSput | HLSputFloat | HLSputObject | HLSputBoolean | HLSputByte
  | HLSputChar | HLSputShort | HLSputDouble | HLSputWide
  | HLSget | HLSgetFloat | HLSgetObject | HLSgetBoolean | HLSgetByte
  | HLSgetChar | HLSgetShort | HLSgetDouble | HLSgetWide
  | HLIGet | HLIGetFloat | HLIGetObject | HLIGetBoolean | HLIGetByte
  | HLIGetChar | HLIGetShort | HLIGetDouble | HLIGetWide
  | HLIPut | HLIPutFloat | HLIPutObject | HLIPutBoolean | HLIPutByte
  | HLIPutChar | HLIPutShort | HLIPutDouble | HLIPutWide
  deriving DecidableEq, Repr

/-- An argument of an emitted intrinsic call: an int32 immediate
(irb->getInt32) or a registry value fetched by getLLVMValue at an SSA
slot. -/
inductive CallArg where
  | imm (n : Int)
  | slotVal (sReg : Int)
  deriving DecidableEq, Repr

/-- An emitted intrinsic call together with the SSA slot, if any, that the
converter subsequently defines with the call's result (via defineValue). -/
structure IntrCall where
  intr : IntrinsicId
  args : List CallArg
  defSlot : Option Int
  deriving DecidableEq, Repr

/-- Embedding of convertSget (lines 143-151): one field-index operand; the
call result defines rlDest's slot. -/
def convertSget (fieldIndex : Int) (id : IntrinsicId) (rlDest : RegLocation) :
    IntrCall :=
  { intr := id, args := [CallArg.imm fieldIndex],
    defSlot := some rlDest.origSReg }

/-- Embedding of convertSput (lines 153-162): field-index operand plus the
stored source value; defines no slot.  (Note: this function has no caller
in the source.) -/
def convertSput (fieldIndex : Int) (id : IntrinsicId) (rlSrc : RegLocation) :
    IntrCall :=
  { intr := id, args := [CallArg.imm fieldIndex, CallArg.slotVal rlSrc.origSReg],
    defSlot := none }

/-- Embedding of convertIget (lines 594-605): optimization flags, object
value and field index; the call result defines rlDest's slot. -/
def convertIget (optFlags : Int) (id : IntrinsicId)
    (rlDest rlObj : RegLocation) (fieldIndex : Int) : IntrCall :=
  { intr := id,
    args := [CallArg.imm optFlags, CallArg.slotVal rlObj.origSReg,
             CallArg.imm fieldIndex],
    defSlot := some rlDest.origSReg }

/-- Embedding of convertIput (lines 607-618): optimization flags, stored
source value, object value and field index; defines no slot. -/
def convertIput (optFlags : Int) (id : IntrinsicId)
    (rlSrc rlObj : RegLocation) (fieldIndex : Int) : IntrCall :=
  { intr := id,
    args := [CallArg.imm optFlags, CallArg.slotVal rlSrc.origSReg,
             CallArg.slotVal rlObj.origSReg, CallArg.imm fieldIndex],
    defSlot := none }

/-- Embedding of the static- and instance-field cases of convertMIRNode
(lines 776-840 and 1259-1334), verbatim from the source including its
argument choices: every SPUT_x case calls convertSget (not convertSput),
passing the stored source location rlSrc[0] in the rlDest parameter; every
IGET_x case passes rlSrc[0] (the object) as rlDest and rlSrc[1] (badLoc
for IGET's single-use SSA shape) as rlObj.  vB is the field index for
static accesses, vC for instance accesses. -/
def convertFieldMIR (opcode : Instr) (vB vC : Int)
    (optFlags : Int) (rlDest rlSrc0 rlSrc1 : RegLocation) : Option IntrCall :=
  match opcode with
  | Instr.SPUT_OBJECT => some (convertSget vB IntrinsicId.HLSputObject rlSrc0)
  | Instr.SPUT =>
    if rlSrc0.fp then some (convertSget vB IntrinsicId.HLSputFloat rlSrc0)
    else some (convertSget vB IntrinsicId.HLSput rlSrc0)
  | Instr.SPUT_BOOLEAN => some (convertSget vB IntrinsicId.HLSputBoolean rlSrc0)
  | Instr.SPUT_BYTE => some (convertSget vB IntrinsicId.HLSputByte rlSrc0)
  | Instr.SPUT_CHAR => some (convertSget vB IntrinsicId.HLSputChar rlSrc0)
  | Instr.SPUT_SHORT => some (convertSget vB IntrinsicId.HLSputShort rlSrc0)
  | Instr.SPUT_WIDE =>
    if rlSrc0.fp then some (convertSget vB IntrinsicId.HLSputDouble rlSrc0)
    else some (convertSget vB IntrinsicId.HLSputWide rlSrc0)
  | Instr.SGET_OBJECT => some (convertSget vB IntrinsicId.HLSgetObject rlDest)
  | Instr.SGET =>
    if rlDest.fp then some (convertSget vB IntrinsicId.HLSgetFloat rlDest)
    else some (convertSget vB IntrinsicId.HLSget rlDest)
  | Instr.SGET_BOOLEAN => some (convertSget vB IntrinsicId.HLSgetBoolean rlDest)
  | Instr.SGET_BYTE => some (convertSget vB IntrinsicId.HLSgetByte rlDest)
  | Instr.SGET_CHAR => some (convertSget vB IntrinsicId.HLSgetChar rlDest)
  | Instr.SGET_SHORT => some (convertSget vB IntrinsicId.HLSgetShort rlDest)
  | Instr.SGET_WIDE =>
    if rlDest.fp then some (convertSget vB IntrinsicId.HLSgetDouble rlDest)
    else some (convertSget vB IntrinsicId.HLSgetWide rlDest)
  | Instr.IGET =>
    if rlDest.fp then
      some (convertIget optFlags IntrinsicId.HLIGetFloat rlSrc0 rlSrc1 vC)
    else some (convertIget optFlags IntrinsicId.HLIGet rlSrc0 rlSrc1 vC)
  | Instr.IGET_OBJECT =>
    some (convertIget optFlags IntrinsicId.HLIGetObject rlSrc0 rlSrc1 vC)
  | Instr.IGET_BOOLEAN =>
    some (convertIget optFlags IntrinsicId.HLIGetBoolean rlSrc0 rlSrc1 vC)
  | Instr.IGET_BYTE =>
    some (convertIget optFlags IntrinsicId.HLIGetByte rlSrc0 rlSrc1 vC)
  | Instr.IGET_CHAR =>
    some (convertIget optFlags IntrinsicId.HLIGetChar rlSrc0 rlSrc1 vC)
  | Instr.IGET_SHORT =>
    some (convertIget optFlags IntrinsicId.HLIGetShort rlSrc0 rlSrc1 vC)
  | Instr.IGET_WIDE =>
    if rlDest.fp then
      some (convertIget optFlags IntrinsicId.HLIGetDouble rlSrc0 rlSrc1 vC)
    else some (convertIget optFlags IntrinsicId.HLIGetWide rlSrc0 rlSrc1 vC)
  | Instr.IPUT =>
    if rlDest.fp then
      some (convertIput optFlags IntrinsicId.HLIPutFloat rlSrc0 rlSrc1 vC)
    else some (convertIput optFlags IntrinsicId.HLIPut rlSrc0 rlSrc1 vC)
  | Instr.IPUT_OBJECT =>
    some (convertIput optFlags IntrinsicId.HLIPutObject rlSrc0 rlSrc1 vC)
  | Instr.IPUT_BOOLEAN =>
    some (convertIput optFlags IntrinsicId.HLIPutBoolean rlSrc0 rlSrc1 vC)
  | Instr.IPUT_BYTE =>
    some (convertIput optFlags IntrinsicId.HLIPutByte rlSrc0 rlSrc1 vC)
  | Instr.IPUT_CHAR =>
    some (convertIput optFlags IntrinsicId.HLIPutChar rlSrc0 rlSrc1 vC)
  | Instr.IPUT_SHORT =>
    some (convertIput optFlags IntrinsicId.HLIPutShort rlSrc0 rlSrc1 vC)
  | Instr.IPUT_WIDE =>
    if rlDest.fp then
      some (convertIput optFlags IntrinsicId.HLIPutDouble rlSrc0 rlSrc1 vC)
    else some (convertIput optFlags IntrinsicId.HLIPutWide rlSrc0 rlSrc1 vC)
  | _ => none

/-- Reverse-pass operand-count assertion of cvtSput (line 2263):
DCHECK_EQ(callInst->getNumArgOperands(), 2U). -/
def cvtSputArgCountOk (c : IntrCall) : Bool := c.args.length == 2

/-! Shadow-frame planning: the entry-block computation of
methodBlockBitcodeConversion (lines 1529-1556) and setShadowFrameEntry
(lines 433-451). -/

/-- One SSA definition as the shadow-frame scan sees it: its originating
Dalvik register (SRegToVReg of the SSA register) and the ref flag of its
RegLocation. -/
structure SsaDef where
  vReg : Nat
  ref : Bool
  deriving DecidableEq, Repr

/-- The canBeRef table of the entry-block scan: a Dalvik register may hold
a reference iff some SSA definition maps to it with ref set. -/
def canBeRef (defs : List SsaDef) (v : Nat) : Bool :=
  defs.any (fun d => d.vReg == v && d.ref)

/-- The shadowMap array (lines 1543-1550): the Dalvik registers with
canBeRef set, in ascending register order. -/
def shadowMap (numDalvikRegisters : Nat) (defs : List SsaDef) : List Nat :=
  (List.range numDalvikRegisters).filter (canBeRef defs)

/-- cUnit->numShadowFrameEntries (lines 1537-1541). -/
def numShadowFrameEntries (numDalvikRegisters : Nat) (defs : List SsaDef) :
    Nat :=
  (shadowMap numDalvikRegisters defs).length

/-- The shadow-frame allocation emitted in the entry block (lines
1542-1556): the AllocaShadowFrame intrinsic sized by the entry count, only
when that count is positive. -/
def entryShadowFrameOps (numDalvikRegisters : Nat) (defs : List SsaDef) :
    List EmittedOp :=
  if 0 < numShadowFrameEntries numDalvikRegisters defs then
    [EmittedOp.allocaShadowFrame (numShadowFrameEntries numDalvikRegisters defs)]
  else []

/-- Embedding of the slot lookup of setShadowFrameEntry (lines 435-444):
the first index whose shadowMap entry equals the defining register;
DCHECK_NE(index, -1) makes a missing register fatal, modelled as none. -/
def setShadowFrameEntry (sm : List Nat) (vReg : Nat) : Option Nat :=
  sm.findIdx? (fun r => r == vReg)

/-! Block naming.  The forward pass names non-entry blocks with
StringPrintf(kLabelFormat, offset, id) where kLabelFormat is "L0x%x_%d"
(line 32, createLLVMBasicBlock lines 1664-1685); the reverse pass recovers
the offset with sscanf on the same format (methodBitcodeBlockCodeGen lines
2402-2406).  printf %x renders an unsigned value as lowercase hex digits
with no leading zeros ("0" for zero); sscanf %x consumes a maximal
nonempty run of hex digits and %d a run of decimal digits (the leading
whitespace/sign forms %d would also accept never occur in these names). -/

/-- Big-endian base-16 digit list of a positive number (empty for zero). -/
def hexDigitsCore (n : Nat) : List Nat :=
  if h : n = 0 then []
  else hexDigitsCore (n / 16) ++ [n % 16]
termination_by n
decreasing_by
  exact Nat.div_lt_self (Nat.pos_of_ne_zero h) (by norm_num)

/-- Base-16 digit list as %x prints it: "0" for zero, no leading zeros. -/
def hexDigits (n : Nat) : List Nat :=
  if n = 0 then [0] else hexDigitsCore n

/-- Big-endian base-10 digit list of a positive number (empty for zero). -/
def decDigitsCore (n : Nat) : List Nat :=
  if h : n = 0 then []
  else decDigitsCore (n / 10) ++ [n % 10]
termination_by n
decreasing_by
  exact Nat.div_lt_self (Nat.pos_of_ne_zero h) (by norm_num)

/-- Base-10 digit list as %d prints a nonnegative value. -/
def decDigits (n : Nat) : List Nat :=
  if n = 0 then [0] else decDigitsCore n

/-- The character printf uses for a digit (0-9 then lowercase a-f). -/
def digitCh (d : Nat) : Char := Nat.digitChar d

/-- Whether sscanf %x accepts a character as a hex digit. -/
def isHexCh (c : Char) : Bool :=
  (decide ('0' ≤ c) && decide (c ≤ '9')) ||
  (decide ('a' ≤ c) && decide (c ≤ 'f')) ||
  (decide ('A' ≤ c) && decide (c ≤ 'F'))

/-- Whether sscanf %d accepts a character as a decimal digit. -/
def isDecCh (c : Char) : Bool :=
  decide ('0' ≤ c) && decide (c ≤ '9')

/-- Numeric value of a hex-digit character. -/
def hexChVal (c : Char) : Nat :=
  if decide ('0' ≤ c) && decide (c ≤ '9') then c.toNat - '0'.toNat
  else if decide ('a' ≤ c) && decide (c ≤ 'f') then c.toNat - 'a'.toNat + 10
  else c.toNat - 'A'.toNat + 10

/-- Numeric value of a decimal-digit character. -/
def decChVal (c : Char) : Nat := c.toNat - '0'.toNat

/-- Consume a maximal run of hex digits, accumulating their value. -/
def takeHexRun : List Char → Nat → Nat × List Char
  | [], acc => (acc, [])
  | c :: cs, acc =>
    if isHexCh c then takeHexRun cs (acc * 16 + hexChVal c) else (acc, c :: cs)

/-- Consume a maximal run of decimal digits, accumulating their value. -/
def takeDecRun : List Char → Nat → Nat × List Char
  | [], acc => (acc, [])
  | c :: cs, acc =>
    if isDecCh c then takeDecRun cs (acc * 10 + decChVal c) else (acc, c :: cs)

/-- The name StringPrintf(kLabelFormat, offset, id) produces, as a
character list: literal "L0x", the offset in hex, an underscore, the id in
decimal. -/
def labelChars (offset id : Nat) : List Char :=
  'L' :: '0' :: 'x' ::
    ((hexDigits offset).map digitCh ++ '_' :: (decDigits id).map digitCh)

/-- Block types of the source control-flow graph that createLLVMBasicBlock
distinguishes. -/
inductive BlockType where
  | entryBlock
  | exitBlock
  | exceptionHandling
  | dalvikByteCode
  deriving DecidableEq, Repr

/-- Embedding of the naming decision of createLLVMBasicBlock (lines
1664-1685): the exit block gets no generic-IR block (none), the entry
block is named "entry", every other block is named from its start offset
and id with kLabelFormat. -/
def llvmBlockName (bt : BlockType) (startOffset id : Nat) :
    Option (List Char) :=
  match bt with
  | BlockType.exitBlock => none
  | BlockType.entryBlock => some ("entry".toList)
  | _ => some (labelChars startOffset id)

/-- Embedding of the sscanf(blockName, kLabelFormat, &operands[0], &dummy)
recovery of methodBitcodeBlockCodeGen (lines 2402-2406): match literal
"L0x", then a nonempty hex run (the offset assigned to the label operand),
then the literal underscore, then a nonempty decimal run (the dummy id);
any mismatch means the offset is not assigned (none). -/
def scanLabelChars (s : List Char) : Option (Nat × Nat) :=
  match s with
  | c1 :: c2 :: c3 :: rest =>
    if c1 = 'L' ∧ c2 = '0' ∧ c3 = 'x' then
      match rest with
      | [] => none
      | c :: _ =>
        if isHexCh c then
          let p := takeHexRun rest 0
          match p.2 with
          | [] => none
          | u :: rest2 =>
            if u = '_' then
              match rest2 with
              | [] => none
              | e :: _ =>
                if isDecCh e then some (p.1, (takeDecRun rest2 0).1)
                else none
            else none
        else none
    else none
  | _ => none

/-! Literal arithmetic dispatch of convertMIRNode (lines 984-1024) into
convertArithOpLit (lines 453-460): the OpKind and the literal value passed
for each int literal opcode; the three shift-literal opcodes mask vC with
0x1f first, all others pass vC unchanged. -/

/-- The (OpKind, literal) pair convertMIRNode passes to convertArithOpLit
for each literal arithmetic opcode (none for opcodes outside that group).
vC is the unsigned literal field of the decoded instruction. -/
def convertLitDispatch (opcode : Instr) (vC : Nat) : Option (OpKind × Nat) :=
  match opcode with
  | Instr.ADD_INT_LIT16 => some (OpKind.opAdd, vC)
  | Instr.ADD_INT_LIT8 => some (OpKind.opAdd, vC)
  | Instr.RSUB_INT => some (OpKind.opRsub, vC)
  | Instr.RSUB_INT_LIT8 => some (OpKind.opRsub, vC)
  | Instr.MUL_INT_LIT16 => some (OpKind.opMul, vC)
  | Instr.MUL_INT_LIT8 => some (OpKind.opMul, vC)
  | Instr.DIV_INT_LIT16 => some (OpKind.opDiv, vC)
  | Instr.DIV_INT_LIT8 => some (OpKind.opDiv, vC)
  | Instr.REM_INT_LIT16 => some (OpKind.opRem, vC)
  | Instr.REM_INT_LIT8 => some (OpKind.opRem, vC)
  | Instr.AND_INT_LIT16 => some (OpKind.opAnd, vC)
  | Instr.AND_INT_LIT8 => some (OpKind.opAnd, vC)
  | Instr.OR_INT_LIT16 => some (OpKind.opOr, vC)
  | Instr.OR_INT_LIT8 => some (OpKind.opOr, vC)
  | Instr.XOR_INT_LIT16 => some (OpKind.opXor, vC)
  | Instr.XOR_INT_LIT8 => some (OpKind.opXor, vC)
  | Instr.SHL_INT_LIT8 => some (OpKind.opLsl, vC &&& 0x1f)
  | Instr.SHR_INT_LIT8 => some (OpKind.opAsr, vC &&& 0x1f)
  | Instr.USHR_INT_LIT8 => some (OpKind.opLsr, vC &&& 0x1f)
  | _ => none

end ArtBitcode

namespace ArtBitcode

/-- Claim C1, counterexample: for the defined wide location whose only
class flag is ref, llvmTypeFromLocRec yields the 64-bit integer type
(matching the claimed table entry wide+not-fp), but createLocFromValue on
that type recovers core=true, ref=false: the round trip loses the ref and
core flags, so the claim as stated is false. -/
theorem c1_roundtrip_counterexample :
    exactlyOneClassFlag wideRefLoc = true ∧
    wideRefLoc.defined = true ∧
    llvmTypeFromLocRec wideRefLoc = LType.int64Ty ∧
    (createLocFromValue (llvmTypeFromLocRec wideRefLoc) 0 0).ref ≠ wideRefLoc.ref ∧
    (createLocFromValue (llvmTypeFromLocRec wideRefLoc) 0 0).core ≠ wideRefLoc.core := by
  decide

/-- Claim C1, amended: the forward mapping follows the claimed five-case
table for every location; and for every defined location with exactly one
class flag that is moreover not simultaneously wide and ref (a wide
object reference does not occur in the bytecode model), createLocFromValue
applied to the location's type recovers the same wide, fp, ref and core
flags. -/
theorem c1_loc_type_roundtrip (loc : RegLocation)
    (hone : exactlyOneClassFlag loc = true)
    (hwr : ¬(loc.wide = true ∧ loc.ref = true)) :
    ((loc.wide && loc.fp) = true → llvmTypeFromLocRec loc = LType.doubleTy) ∧
    ((loc.wide && !loc.fp) = true → llvmTypeFromLocRec loc = LType.int64Ty) ∧
    ((!loc.wide && loc.fp) = true → llvmTypeFromLocRec loc = LType.floatTy) ∧
    ((!loc.wide && !loc.fp && loc.ref) = true →
      llvmTypeFromLocRec loc = LType.jobjectTy) ∧
    ((!loc.wide && !loc.fp && !loc.ref) = true →
      llvmTypeFromLocRec loc = LType.int32Ty) ∧
    ((createLocFromValue (llvmTypeFromLocRec loc) loc.sRegLow loc.origSReg).wide
        = loc.wide ∧
     (createLocFromValue (llvmTypeFromLocRec loc) loc.sRegLow loc.origSReg).fp
        = loc.fp ∧
     (createLocFromValue (llvmTypeFromLocRec loc) loc.sRegLow loc.origSReg).ref
        = loc.ref ∧
     (createLocFromValue (llvmTypeFromLocRec loc) loc.sRegLow loc.origSReg).core
        = loc.core) := by
  rcases loc with ⟨l, w, d, f, c, r, o, s⟩
  cases w <;> cases f <;> cases c <;> cases r <;>
    simp_all [llvmTypeFromLocRec, createLocFromValue, exactlyOneClassFlag]

/-- Witness for c1_loc_type_roundtrip at a concrete narrow float
location. -/
theorem c1_loc_type_roundtrip_witness :
    exactlyOneClassFlag
      { location := LocKind.dalvikFrame, wide := false, defined := true,
        fp := true, core := false, ref := false, origSReg := 3,
        sRegLow := 3 } = true ∧
    llvmTypeFromLocRec
      { location := LocKind.dalvikFrame, wide := false, defined := true,
        fp := true, core := false, ref := false, origSReg := 3,
        sRegLow := 3 } = LType.floatTy := by
  refine ⟨by decide, ?_⟩
  have h := c1_loc_type_roundtrip
    { location := LocKind.dalvikFrame, wide := false, defined := true,
      fp := true, core := false, ref := false, origSReg := 3, sRegLow := 3 }
    (by decide) (by decide)
  exact h.2.2.1 (by decide)

/-- Claim C4, counterexample: a conditional branch at instruction offset 10
in a block starting at offset 0 whose taken target starts at offset 5
emits a suspend check (5 is at or before the instruction offset 10), yet
the taken target's start offset is NOT at or before the block's start
offset - so emission is not governed by the block start offset, refuting
the claim as stated. -/
theorem c4_suspend_counterexample :
    EmittedOp.checkSuspend ∈
      convertCompareAndBranch
        { id := 2, startOffset := 0, taken := { id := 3, startOffset := 5 },
          fallThrough := { id := 4, startOffset := 12 } }
        { offset := 10 } CondCode.condEq ∧
    ¬(({ id := 2, startOffset := 0, taken := { id := 3, startOffset := 5 },
         fallThrough := { id := 4, startOffset := 12 } } : BBlock).taken.startOffset
        ≤ ({ id := 2, startOffset := 0, taken := { id := 3, startOffset := 5 },
             fallThrough := { id := 4, startOffset := 12 } } : BBlock).startOffset) := by
  decide

/-- Claim C4, amended: the compare-and-branch converters emit the suspend
check, immediately before the compare and branch, if and only if the taken
target's start offset is at or before the branch INSTRUCTION's own offset
(mir->offset); only the unconditional GOTO compares against the branch's
own block start offset.  A forward branch (taken target strictly beyond
the respective offset) emits no suspend check. -/
theorem c4_suspend_insertion (bb : BBlock) (mir : MIRInst) (cc : CondCode) :
    (convertCompareAndBranch bb mir cc =
      if bb.taken.startOffset ≤ mir.offset then
        [EmittedOp.checkSuspend, EmittedOp.icmp cc false,
         EmittedOp.condBr bb.taken.id bb.fallThrough.id]
      else
        [EmittedOp.icmp cc false,
         EmittedOp.condBr bb.taken.id bb.fallThrough.id]) ∧
    (convertCompareZeroAndBranch bb mir cc =
      if bb.taken.startOffset ≤ mir.offset then
        [EmittedOp.checkSuspend, EmittedOp.icmp cc true,
         EmittedOp.condBr bb.taken.id bb.fallThrough.id]
      else
        [EmittedOp.icmp cc true,
         EmittedOp.condBr bb.taken.id bb.fallThrough.id]) ∧
    (convertGoto bb =
      if bb.taken.startOffset ≤ bb.startOffset then
        [EmittedOp.checkSuspend, EmittedOp.br bb.taken.id]
      else [EmittedOp.br bb.taken.id]) ∧
    (EmittedOp.checkSuspend ∈ convertCompareAndBranch bb mir cc ↔
      bb.taken.startOffset ≤ mir.offset) ∧
    (EmittedOp.checkSuspend ∈ convertCompareZeroAndBranch bb mir cc ↔
      bb.taken.startOffset ≤ mir.offset) ∧
    (EmittedOp.checkSuspend ∈ convertGoto bb ↔
      bb.taken.startOffset ≤ bb.startOffset) := by
  by_cases h1 : bb.taken.startOffset ≤ mir.offset <;>
    by_cases h2 : bb.taken.startOffset ≤ bb.startOffset <;>
      simp [convertCompareAndBranch, convertCompareZeroAndBranch, convertGoto,
            h1, h2]

/-- Claim C5, counterexample: for a leaf method with no shadow-frame
entries (so no shadow frame was allocated in the entry block), RETURN_VOID
still emits the PopShadowFrame intrinsic: the pop is unconditional, not
guarded by allocation, refuting the claim as stated. -/
theorem c5_pop_counterexample :
    EmittedOp.popShadowFrame ∈
      convertReturnVoid { methodIsLeaf := true, numShadowFrameEntries := 0 } ∧
    ({ methodIsLeaf := true,
       numShadowFrameEntries := 0 } : CUnitReturnCtx).numShadowFrameEntries
      = 0 := by
  decide

/-- Claim C5, amended: every return-family opcode (RETURN, RETURN_WIDE,
RETURN_OBJECT, RETURN_VOID) emits a suspend check first exactly when the
method is not a leaf, and then ALWAYS pops the shadow frame - regardless
of whether one was allocated - before emitting the return instruction. -/
theorem c5_return_emission (cu : CUnitReturnCtx) :
    convertReturnMIR Instr.RETURN cu = some (convertReturnValue cu) ∧
    convertReturnMIR Instr.RETURN_WIDE cu = some (convertReturnValue cu) ∧
    convertReturnMIR Instr.RETURN_OBJECT cu = some (convertReturnValue cu) ∧
    convertReturnMIR Instr.RETURN_VOID cu = some (convertReturnVoid cu) ∧
    (convertReturnValue cu =
      if cu.methodIsLeaf then [EmittedOp.popShadowFrame, EmittedOp.ret]
      else [EmittedOp.checkSuspend, EmittedOp.popShadowFrame, EmittedOp.ret]) ∧
    (convertReturnVoid cu =
      if cu.methodIsLeaf then [EmittedOp.popShadowFrame, EmittedOp.retVoid]
      else
        [EmittedOp.checkSuspend, EmittedOp.popShadowFrame,
         EmittedOp.retVoid]) := by
  rcases cu with ⟨leaf, n⟩
  cases leaf <;>
    simp [convertReturnMIR, convertReturnValue, convertReturnVoid]

/-- Claim C6: in cvtBinOp, a subtraction with a constant second operand
converts to the literal-operand subtract variant RSUB_INT_LIT8 carrying
that constant; a subtraction with a constant first operand converts to the
reverse-subtract RSUB_INT carrying that constant (with the second operand
as the register source); a subtraction of two registers converts to the
register-register SUB_INT; and a constant first operand under any other
operation kind trips the DCHECK (modelled as none). -/
theorem c6_const_operand_rewriting (x y : RegLocation) (c : Int) :
    cvtBinOp OpKind.opSub false (LVal.reg x) (LVal.constInt c) =
      some (BinEmission.arithLit Instr.RSUB_INT_LIT8 x c) ∧
    cvtBinOp OpKind.opSub false (LVal.constInt c) (LVal.reg x) =
      some (BinEmission.arithLit Instr.RSUB_INT x c) ∧
    cvtBinOp OpKind.opSub false (LVal.reg x) (LVal.reg y) =
      some (BinEmission.arithRR Instr.SUB_INT false x y) ∧
    (∀ op : OpKind, op ≠ OpKind.opSub →
      cvtBinOp op false (LVal.constInt c) (LVal.reg x) = none) := by
  refine ⟨rfl, rfl, rfl, ?_⟩
  intro op hop
  cases op <;> first | rfl | exact absurd rfl hop

/-- Witness for c6_const_operand_rewriting at concrete locations, the
constant 5, and the non-subtract kind kOpAdd for the assertion branch. -/
theorem c6_const_operand_rewriting_witness :
    cvtBinOp OpKind.opSub false
        (LVal.reg { location := LocKind.dalvikFrame, wide := false,
                    defined := true, fp := false, core := true, ref := false,
                    origSReg := 4, sRegLow := 4 })
        (LVal.constInt 5) =
      some (BinEmission.arithLit Instr.RSUB_INT_LIT8
        { location := LocKind.dalvikFrame, wide := false, defined := true,
          fp := false, core := true, ref := false, origSReg := 4,
          sRegLow := 4 } 5) ∧
    cvtBinOp OpKind.opAdd false (LVal.constInt 5)
        (LVal.reg { location := LocKind.dalvikFrame, wide := false,
                    defined := true, fp := false, core := true, ref := false,
                    origSReg := 4, sRegLow := 4 }) = none := by
  refine ⟨?_, ?_⟩
  · exact (c6_const_operand_rewriting
      { location := LocKind.dalvikFrame, wide := false, defined := true,
        fp := false, core := true, ref := false, origSReg := 4, sRegLow := 4 }
      { location := LocKind.dalvikFrame, wide := false, defined := true,
        fp := false, core := true, ref := false, origSReg := 4, sRegLow := 4 }
      5).1
  · exact (c6_const_operand_rewriting
      { location := LocKind.dalvikFrame, wide := false, defined := true,
        fp := false, core := true, ref := false, origSReg := 4, sRegLow := 4 }
      { location := LocKind.dalvikFrame, wide := false, defined := true,
        fp := false, core := true, ref := false, origSReg := 4, sRegLow := 4 }
      5).2.2.2 OpKind.opAdd (by decide)

/-- Claim C10: the three int shift-by-literal opcodes mask the literal with
0x1f before convertArithOpLit, so the constant shift operand equals vC mod
32 and always lies below 32, whereas the non-shift literal opcodes pass vC
through unchanged. -/
theorem c10_shift_literal_masking (vC : Nat) :
    convertLitDispatch Instr.SHL_INT_LIT8 vC = some (OpKind.opLsl, vC % 32) ∧
    convertLitDispatch Instr.SHR_INT_LIT8 vC = some (OpKind.opAsr, vC % 32) ∧
    convertLitDispatch Instr.USHR_INT_LIT8 vC = some (OpKind.opLsr, vC % 32) ∧
    vC % 32 < 32 ∧
    convertLitDispatch Instr.ADD_INT_LIT16 vC = some (OpKind.opAdd, vC) ∧
    convertLitDispatch Instr.ADD_INT_LIT8 vC = some (OpKind.opAdd, vC) ∧
    convertLitDispatch Instr.RSUB_INT vC = some (OpKind.opRsub, vC) ∧
    convertLitDispatch Instr.RSUB_INT_LIT8 vC = some (OpKind.opRsub, vC) ∧
    convertLitDispatch Instr.MUL_INT_LIT16 vC = some (OpKind.opMul, vC) ∧
    convertLitDispatch Instr.MUL_INT_LIT8 vC = some (OpKind.opMul, vC) ∧
    convertLitDispatch Instr.DIV_INT_LIT16 vC = some (OpKind.opDiv, vC) ∧
    convertLitDispatch Instr.DIV_INT_LIT8 vC = some (OpKind.opDiv, vC) ∧
    convertLitDispatch Instr.REM_INT_LIT16 vC = some (OpKind.opRem, vC) ∧
    convertLitDispatch Instr.REM_INT_LIT8 vC = some (OpKind.opRem, vC) ∧
    convertLitDispatch Instr.AND_INT_LIT16 vC = some (OpKind.opAnd, vC) ∧
    convertLitDispatch Instr.AND_INT_LIT8 vC = some (OpKind.opAnd, vC) ∧
    convertLitDispatch Instr.OR_INT_LIT16 vC = some (OpKind.opOr, vC) ∧
    convertLitDispatch Instr.OR_INT_LIT8 vC = some (OpKind.opOr, vC) ∧
    convertLitDispatch Instr.XOR_INT_LIT16 vC = some (OpKind.opXor, vC) ∧
    convertLitDispatch Instr.XOR_INT_LIT8 vC = some (OpKind.opXor, vC) := by
  have hmask : vC &&& 31 = vC % 32 := by
    simpa using Nat.and_pow_two_sub_one_eq_mod vC 5
  have hlt : vC % 32 < 32 := Nat.mod_lt vC (by norm_num)
  refine ⟨?_, ?_, ?_, hlt, rfl, rfl, rfl, rfl, rfl, rfl, rfl, rfl, rfl, rfl,
    rfl, rfl, rfl, rfl, rfl, rfl⟩ <;>
    simp [convertLitDispatch, hmask]

/-- Claim C3, code-bug evidence evaluated on the failing input.  In
wideArgMethod (wide argument in slots 0-1, narrow argument in slot 2) the
trailing slot 1 of the wide argument is NOT left null: the
argument-recovery branch of the value-creation loop - which, unlike the
placeholder branch and unlike createFunction's own argument stepping, does
not skip the trailing word of a wide slot - stores the NEXT generic-IR
argument there (value 1, the very argument createFunction named "v2_0"
for slot 2), and slot 2 itself is left null.  By contrast, the same wide
pair placed in the placeholder region (widePhMethod) leaves the trailing
slot null exactly as the claim states. -/
theorem c3_wide_pair_trailing_slot :
    wideArgMethod.regWide 0 = true ∧
    (createValues wideArgMethod).llvmValues = [some 0, some 1, none] ∧
    nameOf (createValues wideArgMethod).names 1 = some "v2_0" ∧
    getLLVMValue (createValues wideArgMethod) 1 = some 1 ∧
    getLLVMValue (createValues wideArgMethod) 2 = none ∧
    widePhMethod.regWide 0 = true ∧
    (createValues widePhMethod).llvmValues = [some 0, none] ∧
    (createValues widePhMethod).phIds = [0] := by
  refine ⟨rfl, rfl, rfl, rfl, rfl, rfl, rfl, rfl⟩

/-- Claim C7, code-bug evidence evaluated at the failing inputs.  SPUT
(storing the int in SSA slot 7 to static field 3) dispatches to
convertSget, not convertSput: the emitted HLSput call carries only the
field index - the stored source value is not a call operand - and the
converter DEFINES the source's own slot 7 with the call result, while the
reverse pass's cvtSput operand-count assertion (exactly two operands)
fails on that very call.  IGET (instance field 5, object in slot 4,
destination slot 9) passes rlSrc[0] in the rlDest parameter and rlSrc[1]
(badLoc, since IGET has a single use) as the object: the emitted HLIGet
call's object operand is badLoc's invalid slot -1 and the call result
defines slot 4, the object's slot, instead of destination slot 9. -/
theorem c7_field_dispatch_bug :
    convertFieldMIR Instr.SPUT 3 0 0 badLoc
        { location := LocKind.dalvikFrame, wide := false, defined := true,
          fp := false, core := true, ref := false, origSReg := 7,
          sRegLow := 7 }
        badLoc =
      some { intr := IntrinsicId.HLSput, args := [CallArg.imm 3],
             defSlot := some 7 } ∧
    cvtSputArgCountOk
      { intr := IntrinsicId.HLSput, args := [CallArg.imm 3],
        defSlot := some 7 } = false ∧
    convertFieldMIR Instr.IGET 0 5 0
        { location := LocKind.dalvikFrame, wide := false, defined := true,
          fp := false, core := true, ref := false, origSReg := 9,
          sRegLow := 9 }
        { location := LocKind.dalvikFrame, wide := false, defined := true,
          fp := false, core := false, ref := true, origSReg := 4,
          sRegLow := 4 }
        badLoc =
      some { intr := IntrinsicId.HLIGet,
             args := [CallArg.imm 0, CallArg.slotVal (-1), CallArg.imm 5],
             defSlot := some 4 } := by
  decide

/-- Permuting the SSA-definition list leaves canBeRef pointwise unchanged:
it only asks whether SOME definition with the ref flag maps to the
register. -/
theorem canBeRef_perm {defs1 defs2 : List SsaDef} (h : defs1.Perm defs2)
    (v : Nat) : canBeRef defs1 v = canBeRef defs2 v := by
  unfold canBeRef
  apply Bool.eq_iff_iff.mpr
  simp only [List.any_eq_true]
  constructor
  · rintro ⟨d, hd, hp⟩
    exact ⟨d, h.mem_iff.mp hd, hp⟩
  · rintro ⟨d, hd, hp⟩
    exact ⟨d, h.mem_iff.mpr hd, hp⟩

/-- Claim C8: the shadow map is exactly the set of Dalvik registers with
ref set in at least one SSA definition, in ascending order; its size
drives the allocation intrinsic, emitted only when positive; the map (and
hence every register's slot index) does not depend on the order the SSA
definitions are visited; and the setShadowFrameEntry lookup of a register
outside the map is the fatal DCHECK failure (none). -/
theorem c8_shadow_frame_map (n : Nat) (defs : List SsaDef) (v : Nat) :
    (v ∈ shadowMap n defs ↔
      v < n ∧ ∃ d ∈ defs, d.vReg = v ∧ d.ref = true) ∧
    (shadowMap n defs).Sorted (· < ·) ∧
    (0 < numShadowFrameEntries n defs →
      entryShadowFrameOps n defs =
        [EmittedOp.allocaShadowFrame (numShadowFrameEntries n defs)]) ∧
    (numShadowFrameEntries n defs = 0 → entryShadowFrameOps n defs = []) ∧
    (∀ defs2 : List SsaDef, defs.Perm defs2 →
      shadowMap n defs2 = shadowMap n defs) ∧
    (setShadowFrameEntry (shadowMap n defs) v = none ↔ v ∉ shadowMap n defs) := by
  refine ⟨?_, ?_, ?_, ?_, ?_, ?_⟩
  · simp only [shadowMap, List.mem_filter, List.mem_range, canBeRef,
      List.any_eq_true, Bool.and_eq_true, beq_iff_eq]
  · exact List.Pairwise.filter _ (List.sorted_lt_range n)
  · intro h
    simp [entryShadowFrameOps, h]
  · intro h
    simp [entryShadowFrameOps, h]
  · intro defs2 hperm
    unfold shadowMap
    apply List.filter_congr
    intro x _
    exact canBeRef_perm hperm.symm x
  · unfold setShadowFrameEntry
    rw [List.findIdx?_eq_none_iff]
    constructor
    · intro h hv
      have := h v hv
      simp at this
    · intro hv x hx
      exact beq_eq_false_iff_ne.mpr (fun he => hv (he ▸ hx))

/-- Witness for c8_shadow_frame_map: four Dalvik registers, definitions
mapping register 2 with ref and register 0 without; the permuted
definition list yields the same shadow map, and the allocation intrinsic
is emitted with the map's (positive) size. -/
theorem c8_shadow_frame_map_witness :
    shadowMap 4 [⟨0, false⟩, ⟨2, true⟩] =
      shadowMap 4 [⟨2, true⟩, ⟨0, false⟩] ∧
    entryShadowFrameOps 4 [⟨2, true⟩, ⟨0, false⟩] =
      [EmittedOp.allocaShadowFrame
        (numShadowFrameEntries 4 [⟨2, true⟩, ⟨0, false⟩])] :=
  ⟨(c8_shadow_frame_map 4 [⟨2, true⟩, ⟨0, false⟩] 2).2.2.2.2.1
      [⟨0, false⟩, ⟨2, true⟩] (List.Perm.swap _ _ _),
   (c8_shadow_frame_map 4 [⟨2, true⟩, ⟨0, false⟩] 2).2.2.1 (by decide)⟩

/-- The printf digit characters of values below 16 are hex digits and
parse back to their value. -/
theorem digitCh_hex :
    ∀ d, d < 16 → isHexCh (digitCh d) = true ∧ hexChVal (digitCh d) = d := by
  decide

/-- The printf digit characters of values below 10 are decimal digits and
parse back to their value. -/
theorem digitCh_dec :
    ∀ d, d < 10 → isDecCh (digitCh d) = true ∧ decChVal (digitCh d) = d := by
  decide

/-- Every digit hexDigitsCore emits is below 16. -/
theorem hexDigitsCore_lt (n : Nat) : ∀ d ∈ hexDigitsCore n, d < 16 := by
  induction n using Nat.strong_induction_on with
  | _ n ih =>
    by_cases hn : n = 0
    · rw [hexDigitsCore]
      simp [hn]
    · rw [hexDigitsCore]
      simp only [dif_neg hn]
      intro d hd
      rcases List.mem_append.mp hd with h | h
      · exact ih (n / 16)
          (Nat.div_lt_self (Nat.pos_of_ne_zero hn) (by norm_num)) d h
      · have hdm : d = n % 16 := by simpa using h
        subst hdm
        exact Nat.mod_lt _ (by norm_num)

/-- Every digit decDigitsCore emits is below 10. -/
theorem decDigitsCore_lt (n : Nat) : ∀ d ∈ decDigitsCore n, d < 10 := by
  induction n using Nat.strong_induction_on with
  | _ n ih =>
    by_cases hn : n = 0
    · rw [decDigitsCore]
      simp [hn]
    · rw [decDigitsCore]
      simp only [dif_neg hn]
      intro d hd
      rcases List.mem_append.mp hd with h | h
      · exact ih (n / 10)
          (Nat.div_lt_self (Nat.pos_of_ne_zero hn) (by norm_num)) d h
      · have hdm : d = n % 10 := by simpa using h
        subst hdm
        exact Nat.mod_lt _ (by norm_num)

/-- Every digit of a %x rendering is below 16. -/
theorem hexDigits_lt (n : Nat) : ∀ d ∈ hexDigits n, d < 16 := by
  unfold hexDigits
  by_cases hn : n = 0
  · simp [hn]
  · simpa [hn] using hexDigitsCore_lt n

/-- Every digit of a %d rendering is below 10. -/
theorem decDigits_lt (n : Nat) : ∀ d ∈ decDigits n, d < 10 := by
  unfold decDigits
  by_cases hn : n = 0
  · simp [hn]
  · simpa [hn] using decDigitsCore_lt n

/-- A %x rendering has at least one digit. -/
theorem hexDigits_ne_nil (n : Nat) : hexDigits n ≠ [] := by
  unfold hexDigits
  by_cases hn : n = 0
  · simp [hn]
  · simp only [if_neg hn]
    rw [hexDigitsCore]
    simp [hn]

/-- A %d rendering has at least one digit. -/
theorem decDigits_ne_nil (n : Nat) : decDigits n ≠ [] := by
  unfold decDigits
  by_cases hn : n = 0
  · simp [hn]
  · simp only [if_neg hn]
    rw [decDigitsCore]
    simp [hn]

/-- Folding the base-16 accumulation over hexDigitsCore recovers the
number (shifted under the accumulator). -/
theorem hexDigitsCore_foldl (n : Nat) :
    ∀ acc : Nat, (hexDigitsCore n).foldl (fun a d => a * 16 + d) acc =
      acc * 16 ^ (hexDigitsCore n).length + n := by
  induction n using Nat.strong_induction_on with
  | _ n ih =>
    intro acc
    by_cases hn : n = 0
    · subst hn
      rw [hexDigitsCore]
      simp
    · rw [hexDigitsCore]
      simp only [dif_neg hn, List.foldl_append, List.length_append,
        List.foldl_cons, List.foldl_nil, List.length_cons, List.length_nil]
      rw [ih (n / 16) (Nat.div_lt_self (Nat.pos_of_ne_zero hn) (by norm_num))
        acc]
      have hdm : 16 * (n / 16) + n % 16 = n := Nat.div_add_mod n 16
      calc (acc * 16 ^ (hexDigitsCore (n / 16)).length + n / 16) * 16 + n % 16
          = acc * (16 ^ (hexDigitsCore (n / 16)).length * 16)
              + (16 * (n / 16) + n % 16) := by ring
        _ = acc * 16 ^ ((hexDigitsCore (n / 16)).length + (0 + 1)) + n := by
              rw [hdm, pow_succ]

/-- Folding the base-10 accumulation over decDigitsCore recovers the
number (shifted under the accumulator). -/
theorem decDigitsCore_foldl (n : Nat) :
    ∀ acc : Nat, (decDigitsCore n).foldl (fun a d => a * 10 + d) acc =
      acc * 10 ^ (decDigitsCore n).length + n := by
  induction n using Nat.strong_induction_on with
  | _ n ih =>
    intro acc
    by_cases hn : n = 0
    · subst hn
      rw [decDigitsCore]
      simp
    · rw [decDigitsCore]
      simp only [dif_neg hn, List.foldl_append, List.length_append,
        List.foldl_cons, List.foldl_nil, List.length_cons, List.length_nil]
      rw [ih (n / 10) (Nat.div_lt_self (Nat.pos_of_ne_zero hn) (by norm_num))
        acc]
      have hdm : 10 * (n / 10) + n % 10 = n := Nat.div_add_mod n 10
      calc (acc * 10 ^ (decDigitsCore (n / 10)).length + n / 10) * 10 + n % 10
          = acc * (10 ^ (decDigitsCore (n / 10)).length * 10)
              + (10 * (n / 10) + n % 10) := by ring
        _ = acc * 10 ^ ((decDigitsCore (n / 10)).length + (0 + 1)) + n := by
              rw [hdm, pow_succ]

/-- Folding the base-16 accumulation from zero over a %x rendering
recovers the printed number. -/
theorem hexDigits_foldl (n : Nat) :
    (hexDigits n).foldl (fun a d => a * 16 + d) 0 = n := by
  unfold hexDigits
  by_cases hn : n = 0
  · simp [hn]
  · simp only [if_neg hn]
    rw [hexDigitsCore_foldl]
    simp

/-- Folding the base-10 accumulation from zero over a %d rendering
recovers the printed number. -/
theorem decDigits_foldl (n : Nat) :
    (decDigits n).foldl (fun a d => a * 10 + d) 0 = n := by
  unfold decDigits
  by_cases hn : n = 0
  · simp [hn]
  · simp only [if_neg hn]
    rw [decDigitsCore_foldl]
    simp

/-- The %x scan consumes exactly a printed run of hex digits, accumulating
its value, and stops at the first non-hex character. -/
theorem takeHexRun_digits (rest : List Char)
    (hrest : ∀ c, rest.head? = some c → isHexCh c = false) :
    ∀ ds : List Nat, (∀ d ∈ ds, d < 16) → ∀ acc,
      takeHexRun (ds.map digitCh ++ rest) acc =
        (ds.foldl (fun a d => a * 16 + d) acc, rest) := by
  intro ds
  induction ds with
  | nil =>
    intro _ acc
    cases rest with
    | nil => rfl
    | cons c cs =>
      have hc : isHexCh c = false := hrest c rfl
      simp [takeHexRun, hc]
  | cons d ds ih =>
    intro hds acc
    have hd : d < 16 := hds d (by simp)
    have h1 := (digitCh_hex d hd).1
    have h2 := (digitCh_hex d hd).2
    simp only [List.map_cons, List.cons_append, takeHexRun, h1, if_true, h2,
      List.foldl_cons]
    exact ih (fun x hx => hds x (by simp [hx])) (acc * 16 + d)

/-- The %d scan consumes exactly a printed run of decimal digits,
accumulating its value, and stops at the first non-decimal character. -/
theorem takeDecRun_digits (rest : List Char)
    (hrest : ∀ c, rest.head? = some c → isDecCh c = false) :
    ∀ ds : List Nat, (∀ d ∈ ds, d < 10) → ∀ acc,
      takeDecRun (ds.map digitCh ++ rest) acc =
        (ds.foldl (fun a d => a * 10 + d) acc, rest) := by
  intro ds
  induction ds with
  | nil =>
    intro _ acc
    cases rest with
    | nil => rfl
    | cons c cs =>
      have hc : isDecCh c = false := hrest c rfl
      simp [takeDecRun, hc]
  | cons d ds ih =>
    intro hds acc
    have hd : d < 10 := hds d (by simp)
    have h1 := (digitCh_dec d hd).1
    have h2 := (digitCh_dec d hd).2
    simp only [List.map_cons, List.cons_append, takeDecRun, h1, if_true, h2,
      List.foldl_cons]
    exact ih (fun x hx => hds x (by simp [hx])) (acc * 10 + d)

/-- Claim C9: every non-entry, non-exit source block's generic-IR block is
named from its start offset (hex) and block id with the kLabelFormat
string, and the reverse pass's sscanf of that name with the same format
recovers exactly the block's start offset (as the label operand) and its
id. -/
theorem c9_block_name_roundtrip (bt : BlockType) (off id : Nat)
    (hentry : bt ≠ BlockType.entryBlock) (hexit : bt ≠ BlockType.exitBlock) :
    llvmBlockName bt off id = some (labelChars off id) ∧
    scanLabelChars (labelChars off id) = some (off, id) := by
  constructor
  · cases bt with
    | entryBlock => exact absurd rfl hentry
    | exitBlock => exact absurd rfl hexit
    | exceptionHandling => rfl
    | dalvikByteCode => rfl
  · obtain ⟨d0, ds0, hhex⟩ : ∃ d0 ds0, hexDigits off = d0 :: ds0 := by
      cases h : hexDigits off with
      | nil => exact absurd h (hexDigits_ne_nil off)
      | cons d0 ds0 => exact ⟨d0, ds0, rfl⟩
    obtain ⟨e0, es0, hdec⟩ : ∃ e0 es0, decDigits id = e0 :: es0 := by
      cases h : decDigits id with
      | nil => exact absurd h (decDigits_ne_nil id)
      | cons e0 es0 => exact ⟨e0, es0, rfl⟩
    have hd0 : d0 < 16 := hexDigits_lt off d0 (by rw [hhex]; simp)
    have he0 : e0 < 10 := decDigits_lt id e0 (by rw [hdec]; simp)
    have hrun1 : takeHexRun ((hexDigits off).map digitCh
        ++ ('_' :: (decDigits id).map digitCh)) 0 =
        ((hexDigits off).foldl (fun a d => a * 16 + d) 0,
         '_' :: (decDigits id).map digitCh) := by
      apply takeHexRun_digits
      · intro c hc
        simp only [List.head?_cons, Option.some_inj] at hc
        subst hc
        decide
      · exact hexDigits_lt off
    have hrun2 : takeDecRun ((decDigits id).map digitCh ++ []) 0 =
        ((decDigits id).foldl (fun a d => a * 10 + d) 0, []) := by
      apply takeDecRun_digits
      · intro c hc
        simp at hc
      · exact decDigits_lt id
    rw [List.append_nil] at hrun2
    have hfold1 := hexDigits_foldl off
    have hfold2 := decDigits_foldl id
    unfold labelChars
    rw [hhex] at hrun1 hfold1
    rw [hdec] at hrun1 hrun2 hfold2
    rw [hhex, hdec]
    simp only [List.map_cons, List.cons_append] at hrun1 hrun2 ⊢
    simp only [scanLabelChars]
    simp only [and_self, eq_self_iff_true, if_true, true_and]
    rw [(digitCh_hex d0 hd0).1]
    simp only [if_true]
    rw [hrun1]
    simp only []
    rw [(digitCh_dec e0 he0).1]
    simp only [if_true, eq_self_iff_true]
    rw [hrun2, hfold1, hfold2]

/-- Witness for c9_block_name_roundtrip on a bytecode block at offset 42
with id 3. -/
theorem c9_block_name_roundtrip_witness :
    llvmBlockName BlockType.dalvikByteCode 42 3 = some (labelChars 42 3) ∧
    scanLabelChars (labelChars 42 3) = some (42, 3) :=
  c9_block_name_roundtrip BlockType.dalvikByteCode 42 3 (by decide) (by decide)

/-- Fetching a registry value succeeds exactly when the slot's entry is
present and non-NULL. -/
theorem getLLVMValue_eq_some (st : FwdState) (s : Nat) (v : Val) :
    getLLVMValue st s = some v ↔ st.llvmValues.get? s = some (some v) := by
  unfold getLLVMValue
  cases h : st.llvmValues.get? s with
  | none => simp
  | some e =>
    cases e with
    | none => simp
    | some w => simp

/-- Every operand produced by lookupUses is the registry value of one of
the given use slots. -/
theorem lookupUses_mem (st : FwdState) :
    ∀ (uses : List Nat) (ops : List Val), lookupUses st uses = some ops →
      ∀ o ∈ ops, ∃ s ∈ uses, getLLVMValue st s = some o := by
  intro uses
  induction uses with
  | nil =>
    intro ops h o ho
    simp only [lookupUses, Option.some_inj] at h
    subst h
    simp at ho
  | cons s ss ih =>
    intro ops h o ho
    cases hg : getLLVMValue st s with
    | none =>
      simp only [lookupUses, hg] at h
      exact Option.noConfusion h
    | some v =>
      cases hl : lookupUses st ss with
      | none =>
        simp only [lookupUses, hg, hl] at h
        exact Option.noConfusion h
      | some vs =>
        simp only [lookupUses, hg, hl, Option.some_inj] at h
        subst h
        rcases List.mem_cons.mp ho with h1 | h1
        · exact ⟨s, by simp, h1 ▸ hg⟩
        · obtain ⟨s1, hs1, hgs⟩ := ih vs hl o h1
          exact ⟨s1, by simp [hs1], hgs⟩

/-- Bound lift for the mem-based registry bound. -/
theorem regBound_mono (l : List (Option Val)) (b b2 : Nat) (hb : b ≤ b2)
    (h : ∀ e ∈ l, ∀ v, e = some v → v < b) :
    ∀ e ∈ l, ∀ v, e = some v → v < b2 :=
  fun e he v hv => lt_of_lt_of_le (h e he v hv) hb

/-- Membership in a replaceAllUsesWith image decomposes as the image of a
member instruction with the same result value. -/
theorem mem_replaceAllUsesWith (insts : List (Val × List Val)) (ph val : Val)
    (r : Val) (ops : List Val)
    (h : (r, ops) ∈ replaceAllUsesWith insts ph val) :
    ∃ ops0, (r, ops0) ∈ insts ∧
      ops = ops0.map (fun o => if o == ph then val else o) := by
  unfold replaceAllUsesWith at h
  obtain ⟨a, ha, heq⟩ := List.mem_map.mp h
  refine ⟨a.2, ?_, ?_⟩
  · have : a.1 = r := congrArg Prod.fst heq
    rw [← this]
    exact ha
  · exact (congrArg Prod.snd heq).symm

/-- The invariants of the value pre-declaration loop: placeholders and
registry entries stay below the allocation counter, no instructions are
emitted, and the counter stays at or above the argument count. -/
theorem createValuesAux_inv (m : MethodSig) :
    ∀ (fuel i argIdx : Nat) (st : FwdState),
      (∀ p ∈ st.phIds, p < st.nextVal) →
      (∀ e ∈ st.llvmValues, ∀ v, e = some v → v < st.nextVal) →
      st.insts = [] →
      m.numArgs ≤ st.nextVal →
      ((∀ p ∈ (createValuesAux m fuel i argIdx st).phIds,
          p < (createValuesAux m fuel i argIdx st).nextVal) ∧
       (∀ e ∈ (createValuesAux m fuel i argIdx st).llvmValues, ∀ v,
          e = some v → v < (createValuesAux m fuel i argIdx st).nextVal) ∧
       (createValuesAux m fuel i argIdx st).insts = [] ∧
       m.numArgs ≤ (createValuesAux m fuel i argIdx st).nextVal) := by
  intro fuel
  induction fuel with
  | zero =>
    intro i argIdx st h1 h2 h3 h4
    exact ⟨h1, h2, h3, h4⟩
  | succ fuel ih =>
    intro i argIdx st h1 h2 h3 h4
    simp only [createValuesAux]
    by_cases hc1 : i < m.numSSARegs
    · simp only [if_pos hc1]
      by_cases hc2 : i < m.numRegs
      · simp only [if_pos hc2]
        apply ih
        · exact h1
        · intro e he v hv
          rcases List.mem_append.mp he with h | h
          · exact h2 e h v hv
          · simp only [List.mem_singleton] at h
            subst h
            cases hv
        · exact h3
        · exact h4
      · simp only [if_neg hc2]
        by_cases hc3 : m.numRegs + m.numIns ≤ i
        · simp only [if_pos hc3]
          by_cases hc4 : m.sRegToVReg i < 0
          · simp only [if_pos hc4]
            by_cases hc5 : m.regWide i
            · simp only [if_pos hc5]
              apply ih
              · exact h1
              · intro e he v hv
                rcases List.mem_append.mp he with h | h
                · rcases List.mem_append.mp h with h | h
                  · exact h2 e h v hv
                  · simp only [List.mem_singleton] at h
                    subst h
                    cases hv
                · simp only [List.mem_singleton] at h
                  subst h
                  cases hv
              · exact h3
              · exact h4
            · simp only [if_neg hc5]
              apply ih
              · exact h1
              · intro e he v hv
                rcases List.mem_append.mp he with h | h
                · exact h2 e h v hv
                · simp only [List.mem_singleton] at h
                  subst h
                  cases hv
              · exact h3
              · exact h4
          · simp only [if_neg hc4]
            by_cases hc5 : m.regWide i
            · simp only [if_pos hc5]
              apply ih
              · intro p hp
                rcases List.mem_append.mp hp with h | h
                · exact Nat.lt_succ_of_lt (h1 p h)
                · simp only [List.mem_singleton] at h
                  subst h
                  exact Nat.lt_succ_self _
              · intro e he v hv
                rcases List.mem_append.mp he with h | h
                · rcases List.mem_append.mp h with h | h
                  · exact Nat.lt_succ_of_lt (h2 e h v hv)
                  · simp only [List.mem_singleton] at h
                    subst h
                    cases hv
                    exact Nat.lt_succ_self _
                · simp only [List.mem_singleton] at h
                  subst h
                  cases hv
              · exact h3
              · exact Nat.le_succ_of_le h4
            · simp only [if_neg hc5]
              apply ih
              · intro p hp
                rcases List.mem_append.mp hp with h | h
                · exact Nat.lt_succ_of_lt (h1 p h)
                · simp only [List.mem_singleton] at h
                  subst h
                  exact Nat.lt_succ_self _
              · intro e he v hv
                rcases List.mem_append.mp he with h | h
                · exact Nat.lt_succ_of_lt (h2 e h v hv)
                · simp only [List.mem_singleton] at h
                  subst h
                  cases hv
                  exact Nat.lt_succ_self _
              · exact h3
              · exact Nat.le_succ_of_le h4
        · simp only [if_neg hc3]
          apply ih
          · exact h1
          · intro e he v hv
            rcases List.mem_append.mp he with h | h
            · exact h2 e h v hv
            · simp only [List.mem_singleton] at h
              subst h
              by_cases ha : argIdx < m.numArgs
              · simp only [if_pos ha] at hv
                cases hv
                exact lt_of_lt_of_le ha h4
              · simp only [if_neg ha] at hv
                cases hv
          · exact h3
          · exact h4
    · simp only [if_neg hc1]
      exact ⟨h1, h2, h3, h4⟩

/-- The pre-declaration state of a method: placeholders and registry
entries are below the allocation counter and no instructions exist. -/
theorem createValues_inv (m : MethodSig) :
    (∀ p ∈ (createValues m).phIds, p < (createValues m).nextVal) ∧
    (∀ e ∈ (createValues m).llvmValues, ∀ v,
      e = some v → v < (createValues m).nextVal) ∧
    (createValues m).insts = [] := by
  have h := createValuesAux_inv m m.numSSARegs 0 0 (createFunction m)
    (by intro p hp; simp [createFunction] at hp)
    (by intro e he; simp [createFunction] at he)
    (by simp [createFunction])
    (by simp [createFunction])
  exact ⟨h.1, h.2.1, h.2.2.1⟩

/-- Semantics of defineValue: when the slot holds a placeholder and the
real value is distinct from it, the call succeeds, the placeholder no
longer occurs as an operand of any emitted instruction, the placeholder's
name has moved to the real value (the placeholder is left unnamed), and
the registry entry is overwritten with the real value. -/
theorem defineValue_semantics (st : FwdState) (val : Val) (sReg : Nat)
    (ph : Val) (st2 : FwdState)
    (hph : st.llvmValues.get? sReg = some (some ph)) (hne : val ≠ ph)
    (hdef : defineValue st val sReg = some st2) :
    (∀ r ops, (r, ops) ∈ st2.insts → ph ∉ ops) ∧
    nameOf st2.names val = nameOf st.names ph ∧
    nameOf st2.names ph = none ∧
    st2.llvmValues.get? sReg = some (some val) := by
  simp only [defineValue, hph, Option.some_inj] at hdef
  subst hdef
  refine ⟨?_, ?_, ?_, ?_⟩
  · intro r ops hmem hphin
    obtain ⟨ops0, _, hops⟩ := mem_replaceAllUsesWith st.insts ph val r ops hmem
    subst hops
    obtain ⟨o0, _, ho0⟩ := List.mem_map.mp hphin
    by_cases he : o0 == ph
    · rw [if_pos he] at ho0
      exact hne ho0
    · rw [if_neg he] at ho0
      exact he (by simp [ho0])
  · unfold takeName
    cases hn : nameOf st.names ph with
    | none =>
      simp only []
      unfold nameOf
      rw [List.find?_eq_none.mpr]
      · rfl
      · intro x hx
        have hxf := (List.mem_filter.mp hx).2
        simp only [Bool.and_eq_true, bne_iff_ne] at hxf
        simp [hxf.2]
    | some n =>
      simp only []
      unfold nameOf
      simp [List.find?_cons]
  · unfold takeName
    cases hn : nameOf st.names ph with
    | none =>
      simp only []
      unfold nameOf
      rw [List.find?_eq_none.mpr]
      · rfl
      · intro x hx
        have hxf := (List.mem_filter.mp hx).2
        simp only [Bool.and_eq_true, bne_iff_ne] at hxf
        simp [hxf.1]
    | some n =>
      simp only []
      unfold nameOf
      rw [List.find?_cons_of_neg]
      · rw [List.find?_eq_none.mpr]
        · rfl
        · intro x hx
          have hxf := (List.mem_filter.mp hx).2
          simp only [Bool.and_eq_true, bne_iff_ne] at hxf
          simp [hxf.1]
      · simp
        exact fun h => hne h
  · rw [List.get?_set_eq, hph]
    rfl

/-- The cons equation of defSlots. -/
theorem defSlots_cons (ev : FwdEvent) (rest : List FwdEvent) :
    defSlots (ev :: rest) =
      match ev.defSlot with
      | some s => s :: defSlots rest
      | none => defSlots rest := by
  cases hd : ev.defSlot <;> simp [defSlots, List.filterMap_cons, hd]

/-- One driver step preserves the completeness invariant, discharging the
processed event. -/
theorem emitEvent_inv (init : FwdState) (events : List FwdEvent)
    (ev : FwdEvent) (rest : List FwdEvent) (st st2 : FwdState)
    (hphlt : ∀ p ∈ init.phIds, p < init.nextVal)
    (hev : ev ∈ events)
    (huse : usesResolved init events = true)
    (hinv : DriverInv init events (ev :: rest) st)
    (hemit : emitEvent st ev = some st2) :
    DriverInv init events rest st2 := by
  cases hl : lookupUses st ev.uses with
  | none =>
    simp only [emitEvent, hl] at hemit
    exact Option.noConfusion hemit
  | some ops =>
  have hopsPending : ∀ o ∈ ops, o ∈ init.phIds →
      ∃ s, s ∈ defSlots (ev :: rest) ∧
        st.llvmValues.get? s = some (some o) := by
    intro o ho hoph
    obtain ⟨s, hs, hgs⟩ := lookupUses_mem st ev.uses ops hl o ho
    have hreg : st.llvmValues.get? s = some (some o) :=
      (getLLVMValue_eq_some st s o).mp hgs
    have hinit : init.llvmValues.get? s = some (some o) :=
      hinv.regOrig s o hreg hoph
    have hinitget : getLLVMValue init s = some o :=
      (getLLVMValue_eq_some init s o).mpr hinit
    have hall := List.all_eq_true.mp huse ev hev
    have huse1 := List.all_eq_true.mp hall s hs
    rw [hinitget] at huse1
    simp only [Option.all_some] at huse1
    have hoph2 : (init.phIds.contains o) = true := by simpa using hoph
    rw [hoph2] at huse1
    simp only [Bool.not_true, Bool.false_or] at huse1
    have hsev : s ∈ defSlots events := by simpa using huse1
    exact ⟨s, hinv.sched s o hreg hoph hsev, hreg⟩
  have hvalnotph : st.nextVal ∉ init.phIds := by
    intro h
    exact absurd (hinv.nextGe.trans_lt (hphlt _ h)) (lt_irrefl _)
  cases hd : ev.defSlot with
  | none =>
    simp only [emitEvent, hl, hd, Option.some_inj] at hemit
    subst hemit
    have hds : defSlots (ev :: rest) = defSlots rest := by
      rw [defSlots_cons, hd]
    refine
      { nextGe := hinv.nextGe.trans (Nat.le_succ _),
        phSame := hinv.phSame,
        regLt := fun s v h => Nat.lt_succ_of_lt (hinv.regLt s v h),
        instResGe := ?_, pending := ?_,
        regOrig := fun s v h hp => hinv.regOrig s v h hp,
        sched := fun s v h hp he => by
          rw [← hds]
          exact hinv.sched s v h hp he }
    · intro r ops2 hmem
      rcases List.mem_append.mp hmem with h | h
      · exact hinv.instResGe r ops2 h
      · simp only [List.mem_singleton, Prod.mk.injEq] at h
        exact h.1 ▸ hinv.nextGe
    · intro r ops2 hmem o ho hoph
      rcases List.mem_append.mp hmem with h | h
      · obtain ⟨s, hs, hreg⟩ := hinv.pending r ops2 h o ho hoph
        exact ⟨s, hds ▸ hs, hreg⟩
      · simp only [List.mem_singleton, Prod.mk.injEq] at h
        obtain ⟨s, hs, hreg⟩ := hopsPending o (h.2 ▸ ho) hoph
        exact ⟨s, hds ▸ hs, hreg⟩
  | some s0 =>
    simp only [emitEvent, hl, hd] at hemit
    cases hph : st.llvmValues.get? s0 with
    | none =>
      simp only [defineValue, hph] at hemit
      exact Option.noConfusion hemit
    | some e =>
      cases e with
      | none =>
        simp only [defineValue, hph] at hemit
        exact Option.noConfusion hemit
      | some ph0 =>
        simp only [defineValue, hph, Option.some_inj] at hemit
        subst hemit
        have hds : defSlots (ev :: rest) = s0 :: defSlots rest := by
          rw [defSlots_cons, hd]
        have hpend1 : ∀ r ops2, (r, ops2) ∈ st.insts ++ [(st.nextVal, ops)] →
            ∀ o ∈ ops2, o ∈ init.phIds →
            ∃ s, s ∈ defSlots (ev :: rest) ∧
              st.llvmValues.get? s = some (some o) := by
          intro r ops2 hmem o ho hoph
          rcases List.mem_append.mp hmem with h | h
          · exact hinv.pending r ops2 h o ho hoph
          · simp only [List.mem_singleton, Prod.mk.injEq] at h
            exact hopsPending o (h.2 ▸ ho) hoph
        refine
          { nextGe := hinv.nextGe.trans (Nat.le_succ _),
            phSame := hinv.phSame,
            regLt := ?_, instResGe := ?_, pending := ?_,
            regOrig := ?_, sched := ?_ }
        · intro s v h
          by_cases hss : s = s0
          · subst hss
            rw [List.get?_set_eq, hph] at h
            simp only [Option.map_some, Option.some_inj] at h
            rw [← h]
            exact Nat.lt_succ_self _
          · rw [List.get?_set_ne _ _ (fun he => hss he.symm)] at h
            exact Nat.lt_succ_of_lt (hinv.regLt s v h)
        · intro r ops2 hmem
          obtain ⟨ops0, hmem0, _⟩ :=
            mem_replaceAllUsesWith _ _ _ _ _ hmem
          rcases List.mem_append.mp hmem0 with h | h
          · exact hinv.instResGe r ops0 h
          · simp only [List.mem_singleton, Prod.mk.injEq] at h
            exact h.1 ▸ hinv.nextGe
        · intro r ops2 hmem o ho hoph
          obtain ⟨ops0, hmem0, hops⟩ :=
            mem_replaceAllUsesWith _ _ _ _ _ hmem
          subst hops
          obtain ⟨o0, ho0mem, ho0⟩ := List.mem_map.mp ho
          by_cases hbeq : (o0 == ph0) = true
          · rw [if_pos hbeq] at ho0
            exact absurd (ho0 ▸ hoph) hvalnotph
          · rw [if_neg (by simp [hbeq])] at ho0
            have ho0ne : o0 ≠ ph0 := by
              intro he
              exact hbeq (by simp [he])
            obtain ⟨s, hs, hreg⟩ := hpend1 r ops0 hmem0 o0 ho0mem (ho0 ▸ hoph)
            have hsne : s ≠ s0 := by
              intro he
              rw [he, hph] at hreg
              simp only [Option.some_inj] at hreg
              exact ho0ne hreg.symm
            refine ⟨s, ?_, ?_⟩
            · rw [hds] at hs
              rcases List.mem_cons.mp hs with h | h
              · exact absurd h hsne
              · exact h
            · rw [List.get?_set_ne _ _ (fun he => hsne he.symm), hreg, ho0]
        · intro s v h hvph
          by_cases hss : s = s0
          · subst hss
            rw [List.get?_set_eq, hph] at h
            simp only [Option.map_some, Option.some_inj] at h
            exact absurd (h ▸ hvph) hvalnotph
          · rw [List.get?_set_ne _ _ (fun he => hss he.symm)] at h
            exact hinv.regOrig s v h hvph
        · intro s v h hvph hsev
          by_cases hss : s = s0
          · subst hss
            rw [List.get?_set_eq, hph] at h
            simp only [Option.map_some, Option.some_inj] at h
            exact absurd (h ▸ hvph) hvalnotph
          · rw [List.get?_set_ne _ _ (fun he => hss he.symm)] at h
            have := hinv.sched s v h hvph hsev
            rw [hds] at this
            rcases List.mem_cons.mp this with he | he
            · exact absurd he hss
            · exact he

/-- Running the driver to completion turns the base invariant into the
final one (empty remainder). -/
theorem runEvents_inv (init : FwdState) (events : List FwdEvent)
    (hphlt : ∀ p ∈ init.phIds, p < init.nextVal)
    (huse : usesResolved init events = true) :
    ∀ (rem : List FwdEvent), (∀ e ∈ rem, e ∈ events) →
      ∀ (st st' : FwdState), DriverInv init events rem st →
        runEvents st rem = some st' → DriverInv init events [] st' := by
  intro rem
  induction rem with
  | nil =>
    intro _ st st' hinv hrun
    simp only [runEvents, Option.some_inj] at hrun
    subst hrun
    exact hinv
  | cons ev rest ih =>
    intro hsub st st' hinv hrun
    simp only [runEvents] at hrun
    cases hemit : emitEvent st ev with
    | none =>
      rw [hemit] at hrun
      exact Option.noConfusion hrun
    | some st2 =>
      rw [hemit] at hrun
      simp only [Option.some_bind] at hrun
      have hinv2 := emitEvent_inv init events ev rest st st2 hphlt
        (hsub ev (List.mem_cons_self ev rest)) huse hinv hemit
      exact ih (fun e he => hsub e (List.mem_cons_of_mem _ he)) st2 st' hinv2
        hrun

/-- Claim C2: every definition of a slot backpatches its placeholder -
defineValue replaces all uses of the placeholder (it no longer occurs as
any instruction operand), transfers its name to the real value, and
overwrites the registry entry; and after a complete forward conversion in
which every referenced slot still holding a placeholder is defined by some
event, the finished function (its emitted instructions, once the
placeholder block is erased) contains no placeholder: neither as a result
value, nor as an operand, nor as the registry entry of any defined slot. -/
theorem c2_placeholder_backpatch (m : MethodSig) (events : List FwdEvent)
    (st' : FwdState)
    (hrun : oatMethodMIR2Bitcode m events = some st')
    (huse : usesResolved (createValues m) events = true) :
    (∀ (st : FwdState) (val : Val) (sReg : Nat) (ph : Val) (st2 : FwdState),
        st.llvmValues.get? sReg = some (some ph) → val ≠ ph →
        defineValue st val sReg = some st2 →
        ((∀ r ops, (r, ops) ∈ st2.insts → ph ∉ ops) ∧
         nameOf st2.names val = nameOf st.names ph ∧
         nameOf st2.names ph = none ∧
         st2.llvmValues.get? sReg = some (some val))) ∧
    (∀ r ops, (r, ops) ∈ st'.insts →
      r ∉ (createValues m).phIds ∧ ∀ o ∈ ops, o ∉ (createValues m).phIds) ∧
    (∀ s ∈ defSlots events, ∀ v, getLLVMValue st' s = some v →
      v ∉ (createValues m).phIds) := by
  have hcv := createValues_inv m
  have hphlt : ∀ p ∈ (createValues m).phIds, p < (createValues m).nextVal :=
    hcv.1
  have hbase : DriverInv (createValues m) events events (createValues m) :=
    { nextGe := le_refl _,
      phSame := rfl,
      regLt := fun s v h => hcv.2.1 _ (List.get?_mem h) v rfl,
      instResGe := fun r ops h => by
        rw [hcv.2.2] at h
        exact absurd h (List.not_mem_nil _),
      pending := fun r ops h => by
        rw [hcv.2.2] at h
        exact absurd h (List.not_mem_nil _),
      regOrig := fun s v h _ => h,
      sched := fun s v _ _ h => h }
  have hfin := runEvents_inv (createValues m) events hphlt huse events
    (fun e he => he) (createValues m) st' hbase hrun
  refine ⟨?_, ?_, ?_⟩
  · intro st val sReg ph st2 hph hne hdef
    exact defineValue_semantics st val sReg ph st2 hph hne hdef
  · intro r ops hmem
    constructor
    · intro hrph
      exact absurd (hfin.instResGe r ops hmem) (by
        simp only [not_le]
        exact hphlt r hrph)
    · intro o ho hoph
      obtain ⟨s, hs, _⟩ := hfin.pending r ops hmem o ho hoph
      simp [defSlots] at hs
  · intro s hsev v hget hvph
    have hreg := (getLLVMValue_eq_some st' s v).mp hget
    have hmem := hfin.sched s v hreg hvph hsev
    simp [defSlots] at hmem

/-- Witness for c2_placeholder_backpatch on the two-slot method with a
forward reference: the run succeeds, every referenced slot is defined, and
the finished instructions contain no placeholder. -/
theorem c2_placeholder_backpatch_witness :
    oatMethodMIR2Bitcode c2Method c2Events = some c2Final ∧
    usesResolved (createValues c2Method) c2Events = true ∧
    (∀ r ops, (r, ops) ∈ c2Final.insts →
      r ∉ (createValues c2Method).phIds ∧
      ∀ o ∈ ops, o ∉ (createValues c2Method).phIds) :=
  ⟨rfl, rfl,
   (c2_placeholder_backpatch c2Method c2Events c2Final rfl rfl).2.1⟩

end ArtBitcode
